import Mathlib

/-!
Shallow embedding of the wvr-rendering stage execution engine
(src/lib.rs, src/stage.rs, src/filter.rs, src/uniform.rs).

Modelling conventions:
* Rust `HashMap<String, V>` values are modelled as association lists
  `List (String × V)`; `alookup` models `HashMap::get` and `aset` models the
  replace-or-insert pattern (`get_mut` + assignment, falling back to `insert`)
  used throughout the source.  Theorems that depend on per-key reasoning carry
  a `Nodup` hypothesis on the key list, which a Rust `HashMap` guarantees.
* `f32`/`f64` scalars are modelled as `ℚ`; every concrete scalar appearing in a
  claim (2.0, 0.5, 4.0, …) is exactly representable, so no rounding is lost.
* GPU objects are modelled by the data the code tracks for them: a `Texture2d`
  render buffer is a numeric identity, a converted texture keeps its resolution
  and pixel payload.  GPU allocation (vertex buffers, empty textures) is
  modelled as always succeeding; the only failure paths modelled are the ones
  the claims are about (shader compilation, uniform conversion).
* Code that aborts through a Rust `panic!`/`unimplemented!` macro is modelled
  by an explicit `panicked` constructor of the corresponding result type,
  kept distinct from the `err` constructor that models a returned `Err` value.
-/

/-- Association-list lookup, modelling `HashMap::get`. -/
def alookup {α : Type} : List (String × α) → String → Option α
  | [], _ => none
  | (k, v) :: rest, key => if k = key then some v else alookup rest key

/-- Association-list replace-or-insert, modelling the source's
`if let Some(slot) = map.get_mut(k) { *slot = v } else { map.insert(k, v) }`
pattern (and `HashMap::insert`, which likewise replaces an existing entry). -/
def aset {α : Type} : List (String × α) → String → α → List (String × α)
  | [], k, v => [(k, v)]
  | (k', v') :: rest, k, v =>
      if k' = k then (k, v) :: rest else (k', v') :: aset rest k v

/-- Keys of an association list. -/
def akeys {α : Type} (l : List (String × α)) : List String := l.map Prod.fst

/-- The tagged parameter value flowing into shader inputs
(`wvr_data::types::DataHolder`, the `ParameterValue` of the spec).  The crate
defining it is external to src/; the variants are the ones the conversion in
src/uniform.rs matches on.  `unsupported` stands for any variant falling into
that conversion's wildcard `_` arm (the source anticipates such variants
explicitly). -/
inductive DataHolder
  | float (v : ℚ)
  | float2 (v : ℚ × ℚ)
  | float3 (v : ℚ × ℚ × ℚ)
  | float4 (v : ℚ × ℚ × ℚ × ℚ)
  | int (v : ℤ)
  | bool (b : Bool)
  | texture (res : ℕ × ℕ) (data : List ℚ)
  | srgbTexture (res : ℕ × ℕ) (data : List ℚ)
  | floatArray (a : List ℚ)
  | boolArray (a : List Bool)
  | intArray (a : List ℤ)
  | byteArray (a : List ℕ)
  | unsupported
deriving DecidableEq

/-- GPU-resident uniform value (src/uniform.rs `UniformHolder`).  A `buffer`
keeps the float data uploaded to the 1-D depth texture together with the
recorded length; a `texture` keeps resolution, pixel payload and whether
mipmaps were generated for it. -/
inductive UniformHolder
  | buffer (data : List ℚ) (length : ℕ)
  | texture (res : ℕ × ℕ) (data : List ℚ) (mipmapped : Bool)
  | srgbTexture (res : ℕ × ℕ) (data : List ℚ) (mipmapped : Bool)
  | float (v : ℚ)
  | float2 (v : ℚ × ℚ)
  | float3 (v : ℚ × ℚ × ℚ)
  | float4 (v : ℚ × ℚ × ℚ × ℚ)
  | integer (v : ℤ)
  | bool (b : Bool)
  | mat2 (m : List (List ℚ))
  | mat3 (m : List (List ℚ))
  | mat4 (m : List (List ℚ))
deriving DecidableEq

/-- Outcome of the `TryFrom<(&dyn Facade, &DataHolder, bool)>` conversion in
src/uniform.rs.  `ok` models a returned `Ok`, `err` a returned `Err` (in the
source those arise only from GPU texture-allocation failures, which this model
treats as always succeeding, so no input below produces `err`), and
`panicked` models the `unimplemented!()` macro in the wildcard arm, which
aborts instead of returning. -/
inductive ConvResult
  | ok (u : UniformHolder)
  | err (msg : String)
  | panicked
deriving DecidableEq

/-- src/uniform.rs lines 34-104: convert a `DataHolder` into a
`UniformHolder`, generating mipmaps for textures when requested.  Scalar casts
(`f64 as f32`, `i64 as i32`) are identity on the exact rationals/integers used
in the claims.  `IntArray` entries are scaled by `2^-32` and `ByteArray`
entries by `1/255` exactly as in the source. -/
def UniformHolder.tryFrom (value : DataHolder) (generateMipmaps : Bool) : ConvResult :=
  match value with
  | .float v => .ok (.float v)
  | .float2 v => .ok (.float2 v)
  | .float3 v => .ok (.float3 v)
  | .float4 v => .ok (.float4 v)
  | .int v => .ok (.integer v)
  | .bool b => .ok (.bool b)
  | .texture res data => .ok (.texture res data generateMipmaps)
  | .srgbTexture res data => .ok (.srgbTexture res data generateMipmaps)
  | .floatArray a => .ok (.buffer a a.length)
  | .boolArray a => .ok (.buffer (a.map fun x => if x then (1 : ℚ) else 0) a.length)
  | .intArray a => .ok (.buffer (a.map fun x => (x : ℚ) / 2 ^ 32) a.length)
  | .byteArray a => .ok (.buffer (a.map fun x => (x : ℚ) / 255) a.length)
  | .unsupported => .panicked

/-- Minify sampler filter (glium). -/
inductive MinFilter
  | nearest
  | linear
  | linearMipmapLinear
deriving DecidableEq

/-- Magnify sampler filter (glium). -/
inductive MagFilter
  | nearest
  | linear
deriving DecidableEq

/-- The `(MinifySamplerFilter, MagnifySamplerFilter)` pair carried alongside
uniform values. -/
abbrev Sampling := MinFilter × MagFilter

/-- `wvr_data::types::InputSampler`: how a named input is sampled. -/
inductive InputSampler
  | nearest (nm : String)
  | linear (nm : String)
  | mipmaps (nm : String)
deriving DecidableEq

/-- The source name wrapped by an `InputSampler`. -/
def InputSampler.sourceName : InputSampler → String
  | .nearest nm => nm
  | .linear nm => nm
  | .mipmaps nm => nm

/-- src/lib.rs lines 342-358: the sampler filter pair chosen for each
`InputSampler` variant in `ShaderView::render_stage`. -/
def InputSampler.sampling : InputSampler → Sampling
  | .nearest _ => (MinFilter.nearest, MagFilter.nearest)
  | .linear _ => (MinFilter.linear, MagFilter.linear)
  | .mipmaps _ => (MinFilter.linearMipmapLinear, MagFilter.linear)

/-- Modelled from the spec: `wvr_data::types::Automation` is not under src/.
The spec describes it as `None` or a curve kind with
`apply(base_value, beat) -> Option<ParameterValue>` returning a replacement
only when the curve is active.  We keep the whole family abstract as the
`apply` function itself; `Automation.none` is the inactive variant. -/
structure Automation where
  apply : DataHolder → ℚ → Option DataHolder

/-- Modelled from the spec: `Automation::None` never produces a replacement
value. -/
def Automation.none : Automation := ⟨fun _ _ => Option.none⟩

/-- Modelled from the spec: multiplication `offset_weight * reference_value`
on `DataHolder` values (wvr_data operator impls are not under src/).  The spec
specifies scalar/vector elementwise arithmetic; a scalar weight scales each
component.  Non-numeric combinations (which no claim exercises) are left as
the left operand. -/
def dhMul (w v : DataHolder) : DataHolder :=
  match w, v with
  | .float a, .float b => .float (a * b)
  | .float a, .float2 (x, y) => .float2 (a * x, a * y)
  | .float a, .float3 (x, y, z) => .float3 (a * x, a * y, a * z)
  | .float a, .float4 (x, y, z, t) => .float4 (a * x, a * y, a * z, a * t)
  | .int a, .int b => .int (a * b)
  | w', _ => w'

/-- Modelled from the spec: addition `base + offset` on `DataHolder` values
(wvr_data operator impls are not under src/), elementwise on matching numeric
variants; other combinations (which no claim exercises) are left as the left
operand. -/
def dhAdd (a b : DataHolder) : DataHolder :=
  match a, b with
  | .float x, .float y => .float (x + y)
  | .float2 (x1, y1), .float2 (x2, y2) => .float2 (x1 + x2, y1 + y2)
  | .float3 (x1, y1, z1), .float3 (x2, y2, z2) => .float3 (x1 + x2, y1 + y2, z1 + z2)
  | .float4 (x1, y1, z1, w1), .float4 (x2, y2, z2, w2) =>
      .float4 (x1 + x2, y1 + y2, z1 + z2, w1 + w2)
  | .int x, .int y => .int (x + y)
  | a', _ => a'

/-- A variable binding of a stage: base value, automation curve, optional
(offset-reference-name, offset-weight) pair — the value type of
`Stage::variable_list` in src/stage.rs. -/
abbrev VarBinding := DataHolder × Automation × Option (String × DataHolder)

/-- Buffer precision formats used by stages (src/stage.rs maps
`BufferPrecision` onto these three `UncompressedFloatFormat` variants). -/
inductive BufferFormat
  | u8x4
  | f16x4
  | f32x4
deriving DecidableEq

/-- src/stage.rs `Stage`.  `filter_mode_params` is carried opaquely by the
source and touched by no claim, so it is omitted here. -/
structure Stage where
  name : String
  filter : String
  inputMap : List (String × InputSampler)
  variableList : List (String × VarBinding)
  uniformList : List (String × UniformHolder)
  bufferFormat : BufferFormat
  recreateBuffers : Bool

/-- src/stage.rs lines 174-179, the offset step of `Stage::update`: when an
offset reference is set and resolves in the environment, add
`offset_weight * reference_value` to the base value and set the
`variable_changed` flag; an offset reference absent from the environment is
silently skipped (flag stays unset, value stays the base). -/
def offsetResolved (env : List (String × DataHolder)) (binding : VarBinding) :
    DataHolder × Bool :=
  match binding.2.2 with
  | some (refName, weight) =>
      match alookup env refName with
      | some refValue => (dhAdd binding.1 (dhMul weight refValue), true)
      | none => (binding.1, false)
  | none => (binding.1, false)

/-- src/stage.rs lines 169-184, the per-variable body of `Stage::update`:
the offset step, then the automation curve, which replaces the value (and
sets the `variable_changed` flag) when it applies.  Returns the resolved
value together with the flag. -/
def resolveVariable (env : List (String × DataHolder)) (beat : ℚ)
    (binding : VarBinding) : DataHolder × Bool :=
  let step1 := offsetResolved env binding
  match binding.2.1.apply step1.1 beat with
  | some newValue => (newValue, true)
  | none => step1

/-- Intermediate result of the `Stage::update` loop: the updated uniform list
and the names whose cached `UniformBinding` was rebuilt (replaced or
inserted), or the abnormal outcomes propagated out of the conversion. -/
inductive StageGoResult
  | ok (uniformList : List (String × UniformHolder)) (rebuilt : List String)
  | errored (msg : String)
  | panicked

/-- src/stage.rs lines 169-195: iterate the variable list; for each variable
whose `variable_changed` flag was set, convert the resolved value
(propagating a conversion `Err` with `?`, and aborting on a conversion panic)
and replace-or-insert the cached uniform entry.  The list of rebuilt names is
recorded so that claims about "the entry was replaced" are expressible even
when the new value is equal to the old one. -/
def stageUpdateGo (env : List (String × DataHolder)) (beat : ℚ) :
    List (String × VarBinding) → List (String × UniformHolder) → List String →
    StageGoResult
  | [], ul, rebuilt => .ok ul rebuilt
  | (nm, binding) :: rest, ul, rebuilt =>
      let r := resolveVariable env beat binding
      if r.2 then
        match UniformHolder.tryFrom r.1 false with
        | .ok u => stageUpdateGo env beat rest (aset ul nm u) (rebuilt ++ [nm])
        | .err msg => .errored msg
        | .panicked => .panicked
      else
        stageUpdateGo env beat rest ul rebuilt

/-- Result of `Stage::update`. -/
inductive StageUpdateResult
  | ok (s : Stage) (rebuilt : List String)
  | errored (msg : String)
  | panicked

/-- src/stage.rs lines 163-198, `Stage::update`. -/
def Stage.update (s : Stage) (env : List (String × DataHolder)) (beat : ℚ) :
    StageUpdateResult :=
  match stageUpdateGo env beat s.variableList s.uniformList [] with
  | .ok ul rebuilt => .ok { s with uniformList := ul } rebuilt
  | .errored msg => .errored msg
  | .panicked => .panicked

/-- A compiled shader program, identified by the source text it was compiled
from (the GPU backend's `compile` capability is modelled as a caller-supplied
oracle `String → String → Option Program`; `none` models a compilation
error). -/
structure Program where
  vertexSource : String
  fragmentSource : String
deriving DecidableEq

/-- src/filter.rs `Filter` (named `ShaderFilter` here because Lean's library
already declares `Filter`).  The two `Box<dyn Shader>` source trackers are
external file watchers; their observable behaviour (`check_changes` results
and the new `get_text` contents) enters the model as arguments of
`Filter.update`.  The constant full-screen-quad vertex and index buffers are
fixed data and are omitted.  `uniform_holder` maps names to a value and an
optional sampler filter pair. -/
structure ShaderFilter where
  resolution : ℕ × ℕ
  time : ℚ
  beat : ℚ
  frameCount : ℕ
  mousePosition : ℚ × ℚ × ℚ × ℚ
  uniformHolder : List (String × UniformHolder × Option Sampling)
  inputs : List String
  vertexText : String
  fragmentText : String
  program : Program

/-- src/filter.rs lines 368-411: the six built-in default uniforms
(`matrix`, `iResolution`, `iMouse`, `iTime`, `iBeat`, `iFrame`) that
`Filter::update` unconditionally re-inserts from the filter's current fields
at the end of every update. -/
def filterDefaultInserts (f : ShaderFilter) :
    List (String × UniformHolder × Option Sampling) :=
  let step1 := aset f.uniformHolder "matrix"
    (UniformHolder.mat4 [[1, 0, 0, 0], [0, 1, 0, 0], [0, 0, 1, 0], [0, 0, 0, 1]], none)
  let step2 := aset step1 "iResolution"
    (UniformHolder.float3 ((f.resolution.1 : ℚ), (f.resolution.2 : ℚ), 0), none)
  let step3 := aset step2 "iMouse"
    (UniformHolder.float4 f.mousePosition, none)
  let step4 := aset step3 "iTime" (UniformHolder.float f.time, none)
  let step5 := aset step4 "iBeat" (UniformHolder.float f.beat, none)
  aset step5 "iFrame" (UniformHolder.integer (f.frameCount : ℤ), none)

/-- src/filter.rs lines 324-412, `Filter::update`.  The shader watchers'
outcomes are passed in: `vertexChanged`/`fragmentChanged` are the
`check_changes` results (an `Err` from `check_changes` is logged and treated
as `false` by the source, so only the resulting booleans matter) and
`newVertexText`/`newFragmentText` the current `get_text` contents.  When
either source changed the cached text is refreshed and recompilation is
attempted through the `compile` oracle: on success the new program replaces
the old one, on failure the error is printed and the program is left
unchanged.  Afterwards the six built-in defaults are re-inserted.  The
function is total: a failed compile never aborts the update. -/
def ShaderFilter.update (compile : String → String → Option Program)
    (vertexChanged fragmentChanged : Bool)
    (newVertexText newFragmentText : String) (f : ShaderFilter) : ShaderFilter :=
  let vt := if vertexChanged then newVertexText else f.vertexText
  let ft := if fragmentChanged then newFragmentText else f.fragmentText
  let prog :=
    if vertexChanged || fragmentChanged then
      match compile vt ft with
      | some p => p
      | none => f.program
    else f.program
  let f' : ShaderFilter := { f with vertexText := vt, fragmentText := ft, program := prog }
  { f' with uniformHolder := filterDefaultInserts f' }

/-- Which of the three argument categories of `Filter::render` a bound
uniform was taken from. -/
inductive Provenance
  | fromRenderTarget
  | fromInputValue
  | fromDefault
deriving DecidableEq

/-- The four uniform vectors assembled by `Filter::render` (the
`CustomUniforms` of src/filter.rs, which visits them in this order:
primitives, render targets, textures, buffers).  Render-buffer textures are
identified by the numeric identity `ℕ`.  Each entry additionally records the
category it was bound from, so priority claims are expressible. -/
structure AssembledUniforms where
  primitives : List (String × UniformHolder × Provenance)
  renderTargets : List (String × ℕ × Sampling)
  textures : List (String × UniformHolder × Sampling × Provenance)
  buffers : List (String × UniformHolder × Sampling × Provenance)
deriving DecidableEq

/-- The empty assembly. -/
def AssembledUniforms.empty : AssembledUniforms := ⟨[], [], [], []⟩

/-- Fieldwise concatenation of assemblies; the source pushes onto four shared
vectors across its three loops, which is the same as concatenating each
loop's contribution in loop order. -/
def AssembledUniforms.append (a b : AssembledUniforms) : AssembledUniforms :=
  ⟨a.primitives ++ b.primitives, a.renderTargets ++ b.renderTargets,
   a.textures ++ b.textures, a.buffers ++ b.buffers⟩

/-- src/filter.rs: the `match value { ... }` body shared by all three loops
of `Filter::render` — a `Buffer` value is bound as a border-clamped sampled
buffer only when a sampler filter pair is available, a `Texture` as a
repeat-wrapped sampled texture only when a pair is available (otherwise the
value is dropped), and every scalar/vector/matrix value as a primitive.  The
source's match predates the `SrgbTexture` variant of src/uniform.rs; it is
treated here like `Texture` (both are sampled 2-D textures). -/
def bindValue (prov : Provenance) (nm : String) (v : UniformHolder)
    (samp : Option Sampling) : AssembledUniforms :=
  match v with
  | .buffer d l =>
      match samp with
      | some s => ⟨[], [], [], [(nm, .buffer d l, s, prov)]⟩
      | none => .empty
  | .texture res d m =>
      match samp with
      | some s => ⟨[], [], [(nm, .texture res d m, s, prov)], []⟩
      | none => .empty
  | .srgbTexture res d m =>
      match samp with
      | some s => ⟨[], [], [(nm, .srgbTexture res d m, s, prov)], []⟩
      | none => .empty
  | v' => ⟨[(nm, v', prov)], [], [], []⟩

/-- src/filter.rs lines 440-486, the first loop of `Filter::render` over the
filter's declared `inputs`: a render-buffer texture carrying a sampler pair
wins, otherwise a caller-supplied input value is bound; in both cases the
name is marked as loaded (even when a texture/buffer value was dropped for
lack of a sampler pair).  Returns this loop's contribution and the names it
loaded. -/
def renderLoopOne (iu : List (String × UniformHolder × Option Sampling))
    (rb : List (String × ℕ × Option Sampling)) :
    List String → AssembledUniforms × List String
  | [] => (.empty, [])
  | nm :: rest =>
      let tail := renderLoopOne iu rb rest
      match alookup rb nm with
      | some (t, some s) =>
          (AssembledUniforms.append ⟨[], [(nm, t, s)], [], []⟩ tail.1, nm :: tail.2)
      | _ =>
          match alookup iu nm with
          | some (v, samp) =>
              (AssembledUniforms.append (bindValue .fromInputValue nm v samp) tail.1,
               nm :: tail.2)
          | none => tail

/-- src/filter.rs lines 488-528, the second loop of `Filter::render` over the
keys of the filter's own uniform cache: a name not already loaded that the
caller supplied a value for is bound from that value and marked loaded. -/
def renderLoopTwo (iu : List (String × UniformHolder × Option Sampling)) :
    List String → List String → AssembledUniforms × List String
  | [], _ => (.empty, [])
  | nm :: rest, loaded =>
      if loaded.contains nm then renderLoopTwo iu rest loaded
      else
        match alookup iu nm with
        | some (v, samp) =>
            let tail := renderLoopTwo iu rest (loaded ++ [nm])
            (AssembledUniforms.append (bindValue .fromInputValue nm v samp) tail.1,
             nm :: tail.2)
        | none => renderLoopTwo iu rest loaded

/-- src/filter.rs lines 530-567, the third loop of `Filter::render` over the
filter's own uniform cache: every entry whose name was not loaded by the
first two loops is bound as a default (with the cache's own sampler pair). -/
def renderLoopThree :
    List (String × UniformHolder × Option Sampling) → List String →
    AssembledUniforms
  | [], _ => .empty
  | (nm, v, samp) :: rest, loaded =>
      if loaded.contains nm then renderLoopThree rest loaded
      else
        AssembledUniforms.append (bindValue .fromDefault nm v samp)
          (renderLoopThree rest loaded)

/-- src/filter.rs lines 414-574: the uniform set assembled by
`Filter::render` from its declared inputs, the caller-supplied input values
`iu`, the caller-supplied render-target textures `rb`, and the filter's own
default cache. -/
def ShaderFilter.renderUniforms (f : ShaderFilter)
    (iu : List (String × UniformHolder × Option Sampling))
    (rb : List (String × ℕ × Option Sampling)) : AssembledUniforms :=
  let one := renderLoopOne iu rb f.inputs
  let two := renderLoopTwo iu (akeys f.uniformHolder) one.2
  AssembledUniforms.append one.1
    (AssembledUniforms.append two.1
      (renderLoopThree f.uniformHolder (one.2 ++ two.2)))

/-- What a call to `Filter::render` submits to the GPU: the compiled program
together with the assembled uniform set (the quad geometry is constant).
Two filter states render identically exactly when this observable agrees for
all caller-supplied inputs. -/
def ShaderFilter.renderObservable (f : ShaderFilter)
    (iu : List (String × UniformHolder × Option Sampling))
    (rb : List (String × ℕ × Option Sampling)) : Program × AssembledUniforms :=
  (f.program, f.renderUniforms iu rb)

/-- Outcome of `Filter::new` / `Filter::from_config`: a constructed filter,
a returned `Err` (missing shader fragment file), or a Rust `panic!` (the
source's behaviour when the initial compile fails). -/
inductive FilterNewResult
  | ok (f : ShaderFilter)
  | err (msg : String)
  | panicked (msg : String)
deriving Inhabited

/-- src/filter.rs lines 224-302, `Filter::new`: build the quad buffers
(GPU allocation modelled as succeeding), take the composed vertex and
fragment source texts, and compile them.  On compile failure the source
executes `panic!` with the parsed diagnostic — it does not return an `Err`.
Only on a successful compile is a `Filter` value produced. -/
def filterNew (compile : String → String → Option Program)
    (resolution : ℕ × ℕ) (vertexText fragmentText : String)
    (inputs : List String)
    (uniformHolder : List (String × UniformHolder × Option Sampling)) :
    FilterNewResult :=
  match compile vertexText fragmentText with
  | some p =>
      .ok { resolution := resolution, time := 0, beat := 0, frameCount := 0,
            mousePosition := (0, 0, 0, 0), uniformHolder := uniformHolder,
            inputs := inputs, vertexText := vertexText,
            fragmentText := fragmentText, program := p }
  | none => .panicked "shader compilation failed"

/-- The parts of `wvr_data::config::FilterConfig` that
`Filter::from_config` reads: the vertex and fragment shader fragment paths,
the declared inputs, and the default variables. -/
structure FilterConfig where
  vertexShaderFiles : List String
  fragmentShaderFiles : List String
  inputs : List String
  variableDefaults : List (String × DataHolder)

/-- src/filter.rs lines 162-204: resolve each shader fragment path against
the ordered candidate roots (`fileText root/file` is the file-system oracle:
`some text` when the file exists there).  The first root containing the file
wins; if no root does, `from_config` returns a NotFound error.  On success the
composed source is the concatenation of the fragment texts
(`ShaderComposer` composition is concatenation per the spec). -/
def resolveShaderFiles (fileText : String → Option String)
    (pathList : List String) : List String → Option (List String)
  | [] => some []
  | file :: rest =>
      let found := pathList.foldl
        (fun acc root => match acc with
          | some t => some t
          | none => fileText (root ++ "/" ++ file)) none
      match found with
      | some text =>
          match resolveShaderFiles fileText pathList rest with
          | some texts => some (text :: texts)
          | none => none
      | none => none

/-- src/filter.rs lines 206-212: build the default uniform cache from the
config variables through the value conversion; a conversion `Err` is silently
skipped (`if let Ok`), while a conversion panic aborts construction. -/
def filterConfigUniforms :
    List (String × DataHolder) →
    Option (List (String × UniformHolder × Option Sampling))
  | [] => some []
  | (nm, v) :: rest =>
      match UniformHolder.tryFrom v false with
      | .ok u =>
          match filterConfigUniforms rest with
          | some l => some (aset l nm (u, none))
          | none => none
      | .err _ =>
          filterConfigUniforms rest
      | .panicked => none

/-- src/filter.rs lines 154-222, `Filter::from_config`: resolve every listed
vertex and fragment shader fragment (a missing file is a returned NotFound
error — fatal at construction), convert the config variables, then defer to
`Filter::new` on the concatenated sources. -/
def filterFromConfig (fileText : String → Option String)
    (compile : String → String → Option Program)
    (pathList : List String) (config : FilterConfig) (resolution : ℕ × ℕ) :
    FilterNewResult :=
  match resolveShaderFiles fileText pathList config.vertexShaderFiles with
  | none => .err "NotFound"
  | some vertexTexts =>
      match resolveShaderFiles fileText pathList config.fragmentShaderFiles with
      | none => .err "NotFound"
      | some fragmentTexts =>
          match filterConfigUniforms config.variableDefaults with
          | none => .panicked "unimplemented conversion"
          | some uh =>
              filterNew compile resolution (String.intercalate "\n" vertexTexts)
                (String.intercalate "\n" fragmentTexts) config.inputs uh

/-- One entry of `ShaderView::render_buffer_list`: the vector of offscreen
textures (always two in well-formed states, identified by `ℕ`) together with
the resolution they were allocated at. -/
abbrev RenderBufferEntry := List ℕ × (ℕ × ℕ)

/-- src/lib.rs `ShaderView`.  `filter_list : HashMap<String, Filter>` is
modelled by its key set `filterNames`: the only use a buffer-level claim makes
of it is the `if let Some(filter) = self.filter_list.get(name)` existence
check in `render_stage` (the `Filter` values themselves are modelled
separately for the src/filter.rs claims). -/
structure ShaderView where
  uniformHolder : List (String × UniformHolder)
  resolution : ℕ × ℕ
  mousePosition : ℚ × ℚ
  dynamic : Bool
  filterNames : List String
  renderBufferList : List RenderBufferEntry
  renderChain : List Stage
  finalStage : Stage

/-- src/lib.rs lines 143-146, `ShaderView::remove_render_stage`: remove the
render buffer entry and the stage at the same index. -/
def ShaderView.removeRenderStage (sv : ShaderView) (stageIndex : ℕ) : ShaderView :=
  { sv with
    renderBufferList := sv.renderBufferList.eraseIdx stageIndex,
    renderChain := sv.renderChain.eraseIdx stageIndex }

/-- src/lib.rs lines 148-154, `ShaderView::move_render_stage`: remove the
buffer entry and the stage at `originalIndex` and re-insert both at
`targetIndex`.  `Vec::remove` panics on an out-of-range index; the model
returns `none` there. -/
def ShaderView.moveRenderStage (sv : ShaderView) (originalIndex targetIndex : ℕ) :
    Option ShaderView :=
  match sv.renderBufferList.get? originalIndex, sv.renderChain.get? originalIndex with
  | some rb, some st =>
      if targetIndex ≤ (sv.renderBufferList.eraseIdx originalIndex).length
          ∧ targetIndex ≤ (sv.renderChain.eraseIdx originalIndex).length then
        some { sv with
          renderBufferList :=
            (sv.renderBufferList.eraseIdx originalIndex).insertIdx targetIndex rb,
          renderChain :=
            (sv.renderChain.eraseIdx originalIndex).insertIdx targetIndex st }
      else none
  | _, _ => none

/-- src/lib.rs lines 156-181, `ShaderView::add_render_stage`: append a freshly
allocated two-texture buffer pair at the current resolution and append the
stage.  `fresh` is the allocator counter: the two new textures get identities
`fresh` and `fresh + 1` (GPU allocation modelled as succeeding). -/
def ShaderView.addRenderStage (sv : ShaderView) (fresh : ℕ) (stage : Stage) :
    ShaderView :=
  { sv with
    renderBufferList :=
      sv.renderBufferList ++ [([fresh, fresh + 1], sv.resolution)],
    renderChain := sv.renderChain ++ [stage] }

/-- src/lib.rs lines 419-458, `ShaderView::set_resolution`: when the new
resolution equals the current one or dynamic resizing is disabled, return
`Ok` immediately with no change at all; otherwise store the new resolution,
clear the render buffer list and push one freshly allocated two-texture pair
at the new size per stage of the render chain (`fresh` is the allocator
counter, textures are numbered consecutively from it). -/
def ShaderView.setResolution (sv : ShaderView) (fresh : ℕ) (resolution : ℕ × ℕ) :
    ShaderView :=
  if resolution = sv.resolution || !sv.dynamic then sv
  else
    { sv with
      resolution := resolution,
      renderBufferList :=
        (List.range sv.renderChain.length).map
          (fun i => ([fresh + 2 * i, fresh + 2 * i + 1], resolution)) }

/-- Outcome of the Ingest phase of `ShaderView::update`. -/
inductive IngestResult
  | ok (holder : List (String × UniformHolder))
  | panicked
deriving DecidableEq

/-- src/lib.rs lines 213-230, the Ingest phase of `ShaderView::update`:
each input provider is a named list of `(source_id, value)` pairs (the
flattening of `provides()` plus a successful `get`; ids whose `get` returns
`None` simply do not appear).  An empty source id is replaced by the
provider's name.  Each value is converted — with mipmap generation when the
id appears in the collected mipmap list — and inserted into the graph-level
uniform cache **only when the conversion returns `Ok`** (`if let Ok`): a
conversion `Err` is silently skipped, while a conversion panic aborts the
whole update. -/
def ingestEntries (mipNames : List String) (inputName : String) :
    List (String × DataHolder) → List (String × UniformHolder) → IngestResult
  | [], h => .ok h
  | (sourceId, value) :: restEntries, h =>
      let sid := if sourceId = "" then inputName else sourceId
      match UniformHolder.tryFrom value (mipNames.contains sid) with
      | .ok u => ingestEntries mipNames inputName restEntries (aset h sid u)
      | .err _ => ingestEntries mipNames inputName restEntries h
      | .panicked => .panicked

/-- The outer loop over the input providers. -/
def ingestSources (mipNames : List String) :
    List (String × List (String × DataHolder)) →
    List (String × UniformHolder) → IngestResult
  | [], holder => .ok holder
  | (inputName, entries) :: restSources, holder =>
      match ingestEntries mipNames inputName entries holder with
      | .ok h => ingestSources mipNames restSources h
      | .panicked => .panicked

/-- src/lib.rs lines 360-365 inside `render_stage`: the render chain is
scanned in order and the **last** stage whose name equals the input name
wins (the loop keeps overwriting `render_buffer_for_input`). -/
def lastMatchIndex (chain : List Stage) (nm : String) : Option ℕ :=
  chain.enum.foldl
    (fun acc p => if p.2.name = nm then some p.1 else acc) none

/-- src/lib.rs lines 341-380 inside `render_stage`: the render-buffer
textures a stage's draw reads.  For each entry of the stage's input map whose
source name matches a stage of the chain, the texture at index 0 of that
stage's buffer pair (in the buffer list as it stands at the time of the
draw) is read.  Input names matching no stage fall back to the graph uniform
cache and read no render-buffer texture. -/
def renderStageReadsGo (chain : List Stage) (bl : List RenderBufferEntry) :
    List (String × InputSampler) → List ℕ
  | [] => []
  | (_, sampler) :: rest =>
      let tail := renderStageReadsGo chain bl rest
      match lastMatchIndex chain sampler.sourceName with
      | some idx =>
          match bl[idx]? with
          | some entry =>
              match entry.1 with
              | t :: _ => t :: tail
              | [] => tail
          | none => tail
      | none => tail

/-- The list of all render-buffer textures read by one stage's draw. -/
def renderStageReads (chain : List Stage) (bl : List RenderBufferEntry)
    (stage : Stage) : List ℕ :=
  renderStageReadsGo chain bl stage.inputMap

/-- One recorded stage draw of `render_stages`: the stage index, whether the
stage's filter was found (the GPU draw is only submitted then), the texture
drawn into (index 1 of the stage's own pair), the render-buffer textures
read, and — for stating which frame the read textures belong to — the front
(index 0) textures of every pair at the moment of the draw. -/
structure DrawEvent where
  stageIndex : ℕ
  didDraw : Bool
  target : ℕ
  reads : List ℕ
  frontsAtDraw : List ℕ
deriving DecidableEq

/-- The front (index 0) texture of every buffer pair. -/
def frontTextures (bl : List RenderBufferEntry) : List ℕ :=
  bl.map (fun entry => entry.1.headD 0)

/-- src/lib.rs lines 304-305: the buffer rotation performed after each
stage's draw — `remove(0)` followed by `push`, so `[a, b]` becomes
`[b, a]` and the just-written index-1 texture lands at index 0. -/
def rotatePack (l : List ℕ) : List ℕ :=
  match l with
  | [] => []
  | t :: rest => rest ++ [t]

/-- src/lib.rs lines 294-313, the body of `render_stages`: walk the render
chain by index; for each stage whose buffer entry exists, draw the stage into
index 1 of its pair (recording the draw) and then rotate the pair.  Mipmap
regeneration on the new front texture changes no texture identity and is not
tracked.  Reads are resolved against the buffer list as already rotated by
the earlier stages of the same call. -/
def renderStagesGo (chain : List Stage) (filterNames : List String) :
    ℕ → List Stage → List RenderBufferEntry →
    List RenderBufferEntry × List DrawEvent
  | _, [], bl => (bl, [])
  | i, stage :: rest, bl =>
      match bl[i]? with
      | some entry =>
          let ev : DrawEvent :=
            { stageIndex := i,
              didDraw := filterNames.contains stage.filter,
              target := entry.1.getD 1 0,
              reads := renderStageReads chain bl stage,
              frontsAtDraw := frontTextures bl }
          let bl' := bl.set i (rotatePack entry.1, entry.2)
          let tail := renderStagesGo chain filterNames (i + 1) rest bl'
          (tail.1, ev :: tail.2)
      | none =>
          renderStagesGo chain filterNames (i + 1) rest bl

/-- src/lib.rs lines 279-316, `ShaderView::render_stages`: returns the view
with its buffer list updated and the list of recorded stage draws. -/
def ShaderView.renderStages (sv : ShaderView) : ShaderView × List DrawEvent :=
  let r := renderStagesGo sv.renderChain sv.filterNames
    0 sv.renderChain sv.renderBufferList
  ({ sv with renderBufferList := r.1 }, r.2)

/-- The state part of `render_stages`, for iterating whole frames. -/
def ShaderView.renderStagesState (sv : ShaderView) : ShaderView :=
  (sv.renderStages).1

/-- Provider flag: does the render-target map supply this name together with
a sampler filter pair?  Only then does the first loop of `Filter::render`
bind it (`if let Some((texture, Some((down, up)))) = render_buffers.get`). -/
def rbProvidesSampled (rb : List (String × ℕ × Option Sampling)) (nm : String) : Bool :=
  match alookup rb nm with
  | some (_, some _) => true
  | _ => false

/-- Provider flag: does the caller-supplied input value map supply this
name? -/
def iuProvides (iu : List (String × UniformHolder × Option Sampling)) (nm : String) : Bool :=
  (alookup iu nm).isSome

/-- Every `(name, category)` pair bound by an assembled uniform set, across
its four vectors. -/
def boundWithProv (a : AssembledUniforms) : List (String × Provenance) :=
  a.primitives.map (fun e => (e.1, e.2.2))
    ++ a.renderTargets.map (fun e => (e.1, Provenance.fromRenderTarget))
    ++ a.textures.map (fun e => (e.1, e.2.2.2))
    ++ a.buffers.map (fun e => (e.1, e.2.2.2))

/-- The categories a given name was bound from. -/
def boundProv (a : AssembledUniforms) (nm : String) : List Provenance :=
  (boundWithProv a).filterMap (fun e => if e.1 = nm then some e.2 else none)

/-- The names bound by an assembled uniform set. -/
def boundNames (a : AssembledUniforms) : List String :=
  (boundWithProv a).map Prod.fst

/-- The priority rule exactly as the claim states it: the highest-priority
category *providing* a name — caller-supplied render-target textures first,
then caller-supplied input uniform values, then the filter's own default
uniform cache. -/
def claimPriorityCategory (f : ShaderFilter)
    (iu : List (String × UniformHolder × Option Sampling))
    (rb : List (String × ℕ × Option Sampling)) (nm : String) : Option Provenance :=
  if (alookup rb nm).isSome then some .fromRenderTarget
  else if (alookup iu nm).isSome then some .fromInputValue
  else if (alookup f.uniformHolder nm).isSome then some .fromDefault
  else none

/-- Decides whether a concrete render call satisfies the claim's priority
rule: every bound uniform must come from the highest-priority category
providing its name. -/
def claimPriorityRespected (f : ShaderFilter)
    (iu : List (String × UniformHolder × Option Sampling))
    (rb : List (String × ℕ × Option Sampling)) : Bool :=
  (boundWithProv (f.renderUniforms iu rb)).all
    (fun e => decide (claimPriorityCategory f iu rb e.1 = some e.2))

/-- The priority rule the code actually implements: for a name in the
filter's declared inputs the order is render-target (when supplied with a
sampler pair) over caller value over default; for a name only in the default
cache, render targets are never consulted and the order is caller value over
default. -/
def renderPriorityCategory (f : ShaderFilter)
    (iu : List (String × UniformHolder × Option Sampling))
    (rb : List (String × ℕ × Option Sampling)) (nm : String) : Option Provenance :=
  if f.inputs.contains nm then
    if rbProvidesSampled rb nm then some .fromRenderTarget
    else if iuProvides iu nm then some .fromInputValue
    else if (alookup f.uniformHolder nm).isSome then some .fromDefault
    else none
  else if (alookup f.uniformHolder nm).isSome then
    if iuProvides iu nm then some .fromInputValue else some .fromDefault
  else none

/-- Decides whether, in one `render_stages` call, every render-buffer texture
read by some stage's draw was a front (index 0) texture as of the *start* of
the call — i.e. a previous frame's completed output, which is what the claim
asserts of every read. -/
def readsOnlyPrevFrameFronts (sv : ShaderView) : Bool :=
  ((sv.renderStages).2).all
    (fun ev => ev.reads.all (fun t => (frontTextures sv.renderBufferList).contains t))

/-- A minimal concrete stage for the concrete instances below. -/
def mkStage (nm filt : String) (im : List (String × InputSampler))
    (vl : List (String × VarBinding)) (ul : List (String × UniformHolder)) : Stage :=
  { name := nm, filter := filt, inputMap := im, variableList := vl,
    uniformList := ul, bufferFormat := .u8x4, recreateBuffers := false }

/-- Concrete stage with one variable: base 2.0, no automation, offset
reference "r" with weight 0.5; cached uniform built from the base. -/
def stageV : Stage :=
  mkStage "s" "f" []
    [("v", (DataHolder.float 2, Automation.none, some ("r", DataHolder.float (1/2))))]
    [("v", UniformHolder.float 2)]

/-- Environment resolving the offset reference "r" to 4.0. -/
def envV : List (String × DataHolder) := [("r", DataHolder.float 4)]

/-- Environment resolving the offset reference "r" to 0.0 (so the offset
step fires but leaves the value at its base). -/
def envC : List (String × DataHolder) := [("r", DataHolder.float 0)]

/-- A variable binding with neither offset reference nor automation. -/
def bW : VarBinding := (DataHolder.float 1, Automation.none, none)

/-- Concrete stage with one variable with neither offset nor automation. -/
def stageW : Stage :=
  mkStage "s" "f" [] [("w", bW)] [("w", UniformHolder.float 1)]

/-- The stage `stageV` after an update that resolved its variable to 4.0. -/
def stageVafter : Stage :=
  mkStage "s" "f" []
    [("v", (DataHolder.float 2, Automation.none, some ("r", DataHolder.float (1/2))))]
    [("v", UniformHolder.float 4)]

/-- A concrete two-stage shader view with distinct buffer textures. -/
def svW : ShaderView :=
  { uniformHolder := [], resolution := (640, 480), mousePosition := (0, 0),
    dynamic := true, filterNames := ["f"],
    renderBufferList := [([0, 1], (640, 480)), ([2, 3], (640, 480))],
    renderChain := [mkStage "a" "f" [] [] [], mkStage "b" "f" [] [] []],
    finalStage := mkStage "final" "f" [] [] [] }

/-- A concrete two-stage shader view in which stage "b" samples stage "a"'s
output. -/
def svAB : ShaderView :=
  { uniformHolder := [], resolution := (640, 480), mousePosition := (0, 0),
    dynamic := false, filterNames := ["f"],
    renderBufferList := [([10, 11], (640, 480)), ([20, 21], (640, 480))],
    renderChain :=
      [mkStage "a" "f" [] [] [],
       mkStage "b" "f" [("tex", InputSampler.linear "a")] [] []],
    finalStage := mkStage "final" "f" [] [] [] }

/-- A concrete one-stage shader view in which the stage samples its own
previous output. -/
def svSelf : ShaderView :=
  { uniformHolder := [], resolution := (640, 480), mousePosition := (0, 0),
    dynamic := false, filterNames := ["f"],
    renderBufferList := [([30, 31], (640, 480))],
    renderChain := [mkStage "a" "f" [("tex", InputSampler.nearest "a")] [] []],
    finalStage := mkStage "final" "f" [] [] [] }

/-- A concrete filter whose default cache holds "u" but whose declared
inputs list is empty. -/
def fP : ShaderFilter :=
  { resolution := (640, 480), time := 0, beat := 0, frameCount := 0,
    mousePosition := (0, 0, 0, 0),
    uniformHolder := [("u", UniformHolder.float 1, none)],
    inputs := [], vertexText := "vsrc", fragmentText := "fsrc",
    program := ⟨"vsrc", "fsrc"⟩ }

/-- Caller-supplied input value for "u". -/
def iuP : List (String × UniformHolder × Option Sampling) :=
  [("u", UniformHolder.float 2, none)]

/-- Caller-supplied render-target texture for "u", with a sampler pair. -/
def rbP : List (String × ℕ × Option Sampling) :=
  [("u", 7, some (MinFilter.linear, MagFilter.linear))]

/-- Like `iuP` but with an extra entry whose name is in neither the declared
inputs nor the default cache of `fP`. -/
def iuJunk : List (String × UniformHolder × Option Sampling) :=
  [("zzz", UniformHolder.float 9, none), ("u", UniformHolder.float 2, none)]

/-- A render-target map naming only a texture unknown to `fP`. -/
def rbJunk : List (String × ℕ × Option Sampling) :=
  [("zzz", 5, some (MinFilter.linear, MagFilter.linear))]

/-- A concrete freshly constructed filter: empty default cache, empty
inputs. -/
def fX : ShaderFilter :=
  { resolution := (640, 480), time := 0, beat := 0, frameCount := 0,
    mousePosition := (0, 0, 0, 0), uniformHolder := [], inputs := [],
    vertexText := "vsrc", fragmentText := "fsrc",
    program := ⟨"vsrc", "fsrc"⟩ }

/-- A concrete filter config with one vertex and one fragment fragment
file. -/
def configW : FilterConfig :=
  { vertexShaderFiles := ["main.vert"], fragmentShaderFiles := ["main.frag"],
    inputs := [], variableDefaults := [] }

/-- A concrete file-system oracle: the two fragments of `configW` exist in
the project root "proj". -/
def fileTextW : String → Option String :=
  fun p => if p = "proj/main.vert" then some "VT"
    else if p = "proj/main.frag" then some "FT" else none

/-!  Theorems.  First the generic helper lemmas, then one theorem per claim
(with its witness or counterexample). -/

theorem alookup_aset_self {α : Type} (l : List (String × α)) (k : String) (v : α) :
    alookup (aset l k v) k = some v := by
  induction l with
  | nil => simp [aset, alookup]
  | cons hd tl ih =>
      obtain ⟨k', v'⟩ := hd
      by_cases h : k' = k
      · simp [aset, alookup, h]
      · simp [aset, alookup, h, ih]

theorem alookup_aset_ne {α : Type} (l : List (String × α)) (k k' : String) (v : α)
    (h : k ≠ k') : alookup (aset l k v) k' = alookup l k' := by
  induction l with
  | nil => simp [aset, alookup, h]
  | cons hd tl ih =>
      obtain ⟨k₀, v₀⟩ := hd
      by_cases h0 : k₀ = k
      · subst h0
        simp [aset, alookup, h]
      · simp only [aset, if_neg h0]
        by_cases h1 : k₀ = k'
        · simp [alookup, h1]
        · simp [alookup, h1, ih]

theorem akeys_aset {α : Type} (l : List (String × α)) (k : String) (v : α)
    (hk : k ∈ akeys l) : akeys (aset l k v) = akeys l := by
  induction l with
  | nil => simp [akeys] at hk
  | cons hd tl ih =>
      obtain ⟨k', v'⟩ := hd
      by_cases h : k' = k
      · simp [aset, akeys, h]
      · have hk' : k ∈ akeys tl := by
          rcases (by simpa [akeys] using hk : k = k' ∨ k ∈ akeys tl) with h1 | h1
          · exact absurd h1.symm h
          · exact h1
        simp only [aset, if_neg h, akeys, List.map_cons]
        have := ih hk'
        simp only [akeys] at this
        rw [this]

theorem zip_eraseIdx {α β : Type} :
    ∀ (l1 : List α) (l2 : List β) (i : ℕ), l1.length = l2.length →
      (l1.eraseIdx i).zip (l2.eraseIdx i) = (l1.zip l2).eraseIdx i
  | [], [], _, _ => by simp
  | [], _ :: _, _, h => by simp at h
  | _ :: _, [], _, h => by simp at h
  | a :: t1, b :: t2, 0, h => rfl
  | a :: t1, b :: t2, i + 1, h => by
      show (a, b) :: (t1.eraseIdx i).zip (t2.eraseIdx i) = (a, b) :: (t1.zip t2).eraseIdx i
      rw [zip_eraseIdx t1 t2 i (by simpa using h)]

theorem zip_insertIdx {α β : Type} :
    ∀ (i : ℕ) (l1 : List α) (l2 : List β) (a : α) (b : β),
      l1.length = l2.length → i ≤ l1.length →
      (l1.insertIdx i a).zip (l2.insertIdx i b) = (l1.zip l2).insertIdx i (a, b)
  | 0, l1, l2, a, b, _, _ => by simp [List.insertIdx_zero]
  | i + 1, [], l2, a, b, h, hi => by simp at hi
  | i + 1, x :: t1, [], a, b, h, hi => by simp at h
  | i + 1, x :: t1, y :: t2, a, b, h, hi => by
      simp only [List.insertIdx_succ_cons, List.zip_cons_cons]
      rw [zip_insertIdx i t1 t2 a b (by simpa using h) (by simpa using hi)]

/-- C8: `set_resolution` called with dynamic resizing disabled, or with a
resolution equal to the current one, returns Ok and changes nothing — the
whole view, including the stored resolution, the render-buffer list and
every buffer's recorded resolution, is unchanged; otherwise (dynamic enabled
and a different resolution) it replaces every stage's buffer pair with a
freshly allocated two-texture pair recorded at the new size (freshness:
every new texture identity is at least the allocator counter). -/
theorem setResolution_spec (sv : ShaderView) (fresh : ℕ) (res : ℕ × ℕ) :
    ((sv.dynamic = false ∨ res = sv.resolution) → sv.setResolution fresh res = sv)
    ∧ (sv.dynamic = true → res ≠ sv.resolution →
        (sv.setResolution fresh res).resolution = res
        ∧ (sv.setResolution fresh res).renderChain = sv.renderChain
        ∧ (sv.setResolution fresh res).renderBufferList.length = sv.renderChain.length
        ∧ (∀ e ∈ (sv.setResolution fresh res).renderBufferList,
            e.2 = res ∧ e.1.length = 2 ∧ ∀ tx ∈ e.1, fresh ≤ tx)) := by
  constructor
  · intro h
    rcases h with h | h
    · simp [ShaderView.setResolution, h]
    · simp [ShaderView.setResolution, h]
  · intro hd hne
    have hcond : ¬ (res = sv.resolution || !sv.dynamic) = true := by
      simp [hd, hne]
    refine ⟨?_, ?_, ?_, ?_⟩
    · simp [ShaderView.setResolution, hcond]
    · simp [ShaderView.setResolution, hcond]
    · simp [ShaderView.setResolution, hcond]
    · intro e he
      simp only [ShaderView.setResolution] at he
      rw [if_neg hcond] at he
      simp only [List.mem_map, List.mem_range] at he
      obtain ⟨j, _, hj⟩ := he
      subst hj
      refine ⟨rfl, rfl, ?_⟩
      intro tx htx
      rcases (by simpa using htx : tx = fresh + 2 * j ∨ tx = fresh + 2 * j + 1) with
        h1 | h1 <;> omega

/-- Concrete instance of `setResolution_spec`: on the two-stage view `svW`
(dynamic resizing enabled, resolution 640×480), setting the same resolution
changes nothing, and setting 800×600 stores the new resolution. -/
theorem setResolution_spec_witness :
    svW.setResolution 100 (640, 480) = svW
    ∧ (svW.setResolution 100 (800, 600)).resolution = (800, 600) :=
  ⟨(setResolution_spec svW 100 (640, 480)).1 (Or.inr rfl),
   ((setResolution_spec svW 100 (800, 600)).2 rfl (by decide)).1⟩

/-- C9: every stage-list mutation keeps the render-buffer list in 1:1
positional correspondence with the stage list: `remove_render_stage` erases
the stage and its buffer pair at the same index, `move_render_stage`
re-inserts the moved stage's own buffer pair at the same target index, and
`add_render_stage` appends the stage together with a matching fresh buffer
pair (the lists pair up exactly as before, with the indicated erasure /
re-insertion / append applied to the paired list). -/
theorem stageListMutation_spec (sv : ShaderView) (i o t fresh : ℕ) (st : Stage)
    (hlen : sv.renderChain.length = sv.renderBufferList.length) :
    ((sv.removeRenderStage i).renderChain.length
        = (sv.removeRenderStage i).renderBufferList.length
      ∧ (sv.removeRenderStage i).renderChain.zip
            (sv.removeRenderStage i).renderBufferList
          = (sv.renderChain.zip sv.renderBufferList).eraseIdx i)
    ∧ (∀ sv' stO rbO, sv.moveRenderStage o t = some sv' →
        sv.renderChain.get? o = some stO → sv.renderBufferList.get? o = some rbO →
        sv'.renderChain.length = sv'.renderBufferList.length
        ∧ sv'.renderChain.zip sv'.renderBufferList
            = ((sv.renderChain.zip sv.renderBufferList).eraseIdx o).insertIdx t (stO, rbO))
    ∧ ((sv.addRenderStage fresh st).renderChain.length
        = (sv.addRenderStage fresh st).renderBufferList.length
      ∧ (sv.addRenderStage fresh st).renderChain.zip
            (sv.addRenderStage fresh st).renderBufferList
          = sv.renderChain.zip sv.renderBufferList
              ++ [(st, ([fresh, fresh + 1], sv.resolution))]) := by
  refine ⟨⟨?_, ?_⟩, ?_, ?_, ?_⟩
  · simp [ShaderView.removeRenderStage, List.length_eraseIdx, hlen]
  · exact zip_eraseIdx _ _ _ hlen
  · intro sv' stO rbO hmv hgetS hgetB
    simp only [ShaderView.moveRenderStage, hgetS, hgetB] at hmv
    by_cases hb : t ≤ (sv.renderBufferList.eraseIdx o).length
        ∧ t ≤ (sv.renderChain.eraseIdx o).length
    · rw [if_pos hb] at hmv
      have hsome := Option.some.inj hmv
      subst hsome
      constructor
      · simp only [List.length_insertIdx _ _ hb.2, List.length_insertIdx _ _ hb.1]
        simp [List.length_eraseIdx, hlen]
      · have hel : (sv.renderChain.eraseIdx o).length
            = (sv.renderBufferList.eraseIdx o).length := by
          simp [List.length_eraseIdx, hlen]
        rw [zip_insertIdx t _ _ _ _ hel hb.2, zip_eraseIdx _ _ _ hlen]
    · rw [if_neg hb] at hmv
      exact absurd hmv (by simp)
  · simp [ShaderView.addRenderStage, hlen]
  · simp only [ShaderView.addRenderStage]
    rw [List.zip_append hlen]
    rfl

/-- Concrete instance of `stageListMutation_spec`: removing stage index 1
from the two-stage view `svW` keeps the stage and buffer lists paired, with
entry 1 of the paired list erased. -/
theorem stageListMutation_spec_witness :
    (svW.removeRenderStage 1).renderChain.zip (svW.removeRenderStage 1).renderBufferList
      = (svW.renderChain.zip svW.renderBufferList).eraseIdx 1 :=
  ((stageListMutation_spec svW 1 0 0 50 (mkStage "c" "f" [] [] []) rfl).1).2

theorem stageUpdateGo_frame (env : List (String × DataHolder)) (beat : ℚ) :
    ∀ (vars : List (String × VarBinding)) (ul : List (String × UniformHolder))
      (acc : List String) (ul' : List (String × UniformHolder)) (reb : List String),
      stageUpdateGo env beat vars ul acc = .ok ul' reb →
      ∀ nm, nm ∉ akeys vars →
        alookup ul' nm = alookup ul nm ∧ (nm ∈ reb ↔ nm ∈ acc)
  | [], ul, acc, ul', reb => by
      intro h nm _
      simp only [stageUpdateGo] at h
      cases h
      exact ⟨rfl, Iff.rfl⟩
  | (n0, b) :: rest, ul, acc, ul', reb => by
      intro h nm hnm
      have hn0 : nm ≠ n0 := by
        intro hcontra
        exact hnm (by simp [akeys, hcontra])
      have hrest : nm ∉ akeys rest := by
        intro hcontra
        exact hnm (by simp [akeys] at hcontra ⊢; exact Or.inr hcontra)
      simp only [stageUpdateGo] at h
      by_cases hr : (resolveVariable env beat b).2 = true
      · rw [if_pos hr] at h
        rcases hconv : UniformHolder.tryFrom (resolveVariable env beat b).1 false with
          u | msg | _
        · rw [hconv] at h
          obtain ⟨h1, h2⟩ := stageUpdateGo_frame env beat rest _ _ _ _ h nm hrest
          rw [alookup_aset_ne _ _ _ _ (Ne.symm hn0)] at h1
          refine ⟨h1, h2.trans ?_⟩
          simp [hn0]
        · rw [hconv] at h; cases h
        · rw [hconv] at h; cases h
      · rw [if_neg hr] at h
        exact stageUpdateGo_frame env beat rest _ _ _ _ h nm hrest

theorem stageUpdateGo_pointwise (env : List (String × DataHolder)) (beat : ℚ) :
    ∀ (vars : List (String × VarBinding)) (ul : List (String × UniformHolder))
      (acc : List String) (ul' : List (String × UniformHolder)) (reb : List String),
      (akeys vars).Nodup →
      stageUpdateGo env beat vars ul acc = .ok ul' reb →
      ∀ nm b, (nm, b) ∈ vars →
        ((resolveVariable env beat b).2 = true →
          ∃ u, UniformHolder.tryFrom (resolveVariable env beat b).1 false = .ok u
            ∧ alookup ul' nm = some u ∧ nm ∈ reb)
        ∧ ((resolveVariable env beat b).2 = false →
          alookup ul' nm = alookup ul nm ∧ (nm ∈ reb ↔ nm ∈ acc))
  | [], ul, acc, ul', reb => by
      intro _ _ nm b hmem
      cases hmem
  | (n0, b0) :: rest, ul, acc, ul', reb => by
      intro hnd h nm b hmem
      have hcons : n0 ∉ akeys rest ∧ (akeys rest).Nodup :=
        List.nodup_cons.mp (by simpa [akeys] using hnd)
      simp only [stageUpdateGo] at h
      rcases List.mem_cons.mp hmem with hhead | htail
      · injection hhead with hn hb
        subst hn
        subst hb
        by_cases hr : (resolveVariable env beat b).2 = true
        · rw [if_pos hr] at h
          rcases hconv : UniformHolder.tryFrom (resolveVariable env beat b).1 false with
            u | msg | _
          · rw [hconv] at h
            obtain ⟨hl, hm⟩ := stageUpdateGo_frame env beat rest _ _ _ _ h nm hcons.1
            constructor
            · intro _
              refine ⟨u, rfl, ?_, ?_⟩
              · rw [hl, alookup_aset_self]
              · rw [hm]
                simp
            · intro hr'
              rw [hr'] at hr
              cases hr
          · rw [hconv] at h; cases h
          · rw [hconv] at h; cases h
        · rw [if_neg hr] at h
          obtain ⟨hl, hm⟩ := stageUpdateGo_frame env beat rest _ _ _ _ h nm hcons.1
          constructor
          · intro hr'
            exact absurd hr' hr
          · intro _
            exact ⟨hl, hm⟩
      · have hne : nm ≠ n0 := by
          intro hcontra
          subst hcontra
          exact hcons.1 (List.mem_map_of_mem Prod.fst htail)
        by_cases hr0 : (resolveVariable env beat b0).2 = true
        · rw [if_pos hr0] at h
          rcases hconv : UniformHolder.tryFrom (resolveVariable env beat b0).1 false with
            u | msg | _
          · rw [hconv] at h
            have ih := stageUpdateGo_pointwise env beat rest _ _ _ _ hcons.2 h nm b htail
            constructor
            · exact ih.1
            · intro hrf
              obtain ⟨hl, hm⟩ := ih.2 hrf
              rw [alookup_aset_ne _ _ _ _ (Ne.symm hne)] at hl
              refine ⟨hl, hm.trans (by simp [hne])⟩
          · rw [hconv] at h; cases h
          · rw [hconv] at h; cases h
        · rw [if_neg hr0] at h
          exact stageUpdateGo_pointwise env beat rest _ _ _ _ hcons.2 h nm b htail

theorem stage_update_inv (s : Stage) (env : List (String × DataHolder)) (beat : ℚ)
    (s' : Stage) (reb : List String) (h : s.update env beat = .ok s' reb) :
    stageUpdateGo env beat s.variableList s.uniformList [] = .ok s'.uniformList reb := by
  unfold Stage.update at h
  rcases hgo : stageUpdateGo env beat s.variableList s.uniformList [] with
    ⟨ul2, reb2⟩ | m | _
  · rw [hgo] at h
    cases h
    rfl
  · rw [hgo] at h; cases h
  · rw [hgo] at h; cases h

theorem resolveVariable_fired (env : List (String × DataHolder)) (beat : ℚ)
    (b : VarBinding) :
    (resolveVariable env beat b).2
      = ((b.2.1.apply (offsetResolved env b).1 beat).isSome
          || (offsetResolved env b).2) := by
  unfold resolveVariable
  rcases h : b.2.1.apply (offsetResolved env b).1 beat with _ | v <;> simp [h]

theorem offsetResolved_base (env : List (String × DataHolder)) (b : VarBinding)
    (h : (offsetResolved env b).2 = false) : (offsetResolved env b).1 = b.1 := by
  obtain ⟨bv, auto, off⟩ := b
  rcases off with _ | ⟨refName, w⟩
  · rfl
  · rcases hele : alookup env refName with _ | rv
    · simp [offsetResolved, hele]
    · simp [offsetResolved, hele] at h

/-- C2: for a variable bound in a Stage with base 2.0-style float values, no
automation, and an offset reference with a float weight, `Stage::update`
resolves the variable to base plus weight times the referenced environment
value and stores the converted result in the cached uniform list; when the
offset reference is absent from the environment the variable resolves to its
base, the cached entry is untouched and `update` still returns Ok (the frame
is not failed). -/
theorem stage_update_offset_resolution
    (s : Stage) (env : List (String × DataHolder)) (beat : ℚ)
    (nm refName : String) (base weight refVal : ℚ)
    (hnd : (akeys s.variableList).Nodup)
    (hmem : (nm, (DataHolder.float base, Automation.none,
        some (refName, DataHolder.float weight))) ∈ s.variableList) :
    (∀ s' reb, alookup env refName = some (DataHolder.float refVal) →
        s.update env beat = .ok s' reb →
        alookup s'.uniformList nm
            = some (UniformHolder.float (base + weight * refVal))
          ∧ nm ∈ reb)
    ∧ (alookup env refName = none →
        s.variableList = [(nm, (DataHolder.float base, Automation.none,
            some (refName, DataHolder.float weight)))] →
        s.update env beat = .ok s []) := by
  constructor
  · intro s' reb henv hup
    have hgo := stage_update_inv s env beat s' reb hup
    have hpt := stageUpdateGo_pointwise env beat s.variableList s.uniformList []
      s'.uniformList reb hnd hgo nm _ hmem
    have hres : resolveVariable env beat
        (DataHolder.float base, Automation.none,
          some (refName, DataHolder.float weight))
        = (DataHolder.float (base + weight * refVal), true) := by
      simp [resolveVariable, offsetResolved, henv, Automation.none, dhMul, dhAdd]
    rw [hres] at hpt
    obtain ⟨u, hconv, hlook, hreb⟩ := hpt.1 rfl
    simp only [UniformHolder.tryFrom] at hconv
    cases hconv
    exact ⟨hlook, hreb⟩
  · intro henv hvl
    have hres : resolveVariable env beat
        (DataHolder.float base, Automation.none,
          some (refName, DataHolder.float weight))
        = (DataHolder.float base, false) := by
      simp [resolveVariable, offsetResolved, henv, Automation.none]
    have hgo : stageUpdateGo env beat s.variableList s.uniformList []
        = .ok s.uniformList [] := by
      rw [hvl]
      simp only [stageUpdateGo, hres]
      rw [if_neg (by simp)]
    simp only [Stage.update, hgo]

/-- Concrete instance of `stage_update_offset_resolution`: base 2.0,
offset-weight 0.5, reference resolving to 4.0 yields 4.0 and a rebuilt
entry; with an empty environment the update is Ok and leaves the stage
unchanged. -/
theorem stage_update_offset_resolution_witness :
    (alookup stageVafter.uniformList "v" = some (UniformHolder.float 4)
      ∧ "v" ∈ ["v"])
    ∧ stageV.update [] 0 = .ok stageV [] := by
  have hup : stageV.update envV 0 = .ok stageVafter ["v"] := by
    norm_num [Stage.update, stageUpdateGo, resolveVariable, offsetResolved,
      stageV, stageVafter, envV, mkStage, Automation.none, dhAdd, dhMul,
      UniformHolder.tryFrom, aset, alookup]
  constructor
  · have h := (stage_update_offset_resolution stageV envV 0 "v" "r" 2 (1/2) 4
      (by decide) (List.mem_singleton.mpr rfl)).1 stageVafter ["v"] rfl hup
    refine ⟨?_, h.2⟩
    have h1 := h.1
    rw [show (2 + (1/2 : ℚ) * 4) = 4 by norm_num] at h1
    exact h1
  · exact (stage_update_offset_resolution stageV [] 0 "v" "r" 2 (1/2) 4
      (by decide) (List.mem_singleton.mpr rfl)).2 rfl rfl

/-- C3 (amended): `Stage::update` replaces (or inserts) a variable's cached
uniform entry if and only if a resolution step fired — the offset reference
resolved in the environment, or `Automation.apply` returned `Some` — *
regardless of whether the resulting value differs from the one the cached
entry was built from*; a variable for which no step fires (in particular one
whose resolution yields its unchanged base) leaves its cached entry
untouched. -/
theorem stage_update_rebuild_characterization
    (s : Stage) (env : List (String × DataHolder)) (beat : ℚ)
    (nm : String) (b : VarBinding) (s' : Stage) (reb : List String)
    (hnd : (akeys s.variableList).Nodup) (hmem : (nm, b) ∈ s.variableList)
    (hup : s.update env beat = .ok s' reb) :
    (nm ∈ reb ↔ ((offsetResolved env b).2 = true
        ∨ (b.2.1.apply (offsetResolved env b).1 beat).isSome = true))
    ∧ ((offsetResolved env b).2 = false → b.2.1.apply b.1 beat = Option.none →
        alookup s'.uniformList nm = alookup s.uniformList nm ∧ nm ∉ reb) := by
  have hgo := stage_update_inv s env beat s' reb hup
  have hpt := stageUpdateGo_pointwise env beat s.variableList s.uniformList []
    s'.uniformList reb hnd hgo nm b hmem
  have hfired := resolveVariable_fired env beat b
  constructor
  · constructor
    · intro hin
      by_contra hno
      push_neg at hno
      have hoff : (offsetResolved env b).2 = false := by
        cases hb : (offsetResolved env b).2
        · rfl
        · exact absurd hb hno.1
      have happ : (b.2.1.apply (offsetResolved env b).1 beat).isSome = false := by
        cases hb : (b.2.1.apply (offsetResolved env b).1 beat).isSome
        · rfl
        · exact absurd hb hno.2
      have hrf : (resolveVariable env beat b).2 = false := by
        rw [hfired, hoff, happ]
        rfl
      have := (hpt.2 hrf).2
      rw [this] at hin
      cases hin
    · intro hor
      have hrf : (resolveVariable env beat b).2 = true := by
        rw [hfired]
        rcases hor with h1 | h1
        · rw [h1]
          simp
        · rw [h1]
          simp
      obtain ⟨u, _, _, hin⟩ := hpt.1 hrf
      exact hin
  · intro hoff happ
    have happ' : (b.2.1.apply (offsetResolved env b).1 beat).isSome = false := by
      rw [offsetResolved_base env b hoff, happ]
      rfl
    have hrf : (resolveVariable env beat b).2 = false := by
      rw [hfired, hoff, happ']
      rfl
    obtain ⟨hl, hm⟩ := hpt.2 hrf
    refine ⟨hl, ?_⟩
    intro hin
    rw [hm] at hin
    cases hin

/-- C3 counterexample: with base 2.0, offset reference "r" with weight 0.5,
no automation, and an environment resolving "r" to 0.0, the newly resolved
value is the base 2.0 — converting to exactly the `UniformHolder.float 2`
the cached entry was built from — yet `update` *replaces* the entry
(rebuilt list `["v"]`).  This refutes "replaces if and only if the newly
resolved value differs from the value the cached entry was built from". -/
theorem stage_update_rebuild_counterexample :
    stageV.update envC 0 = .ok stageV ["v"]
    ∧ (resolveVariable envC 0 (DataHolder.float 2, Automation.none,
        some ("r", DataHolder.float (1/2)))).1 = DataHolder.float 2
    ∧ alookup stageV.uniformList "v" = some (UniformHolder.float 2) := by
  refine ⟨?_, ?_, rfl⟩
  · norm_num [Stage.update, stageUpdateGo, resolveVariable, offsetResolved,
      stageV, envC, mkStage, Automation.none, dhAdd, dhMul,
      UniformHolder.tryFrom, aset, alookup]
  · norm_num [resolveVariable, offsetResolved, envC, Automation.none, dhAdd,
      dhMul, alookup]

/-- Concrete instance of `stage_update_rebuild_characterization` on a stage
whose single variable has neither offset nor automation: updating with an
empty environment rebuilds nothing and leaves the cached entry untouched. -/
theorem stage_update_rebuild_characterization_witness :
    (("w" ∈ ([] : List String)) ↔ ((offsetResolved [] bW).2 = true
        ∨ (bW.2.1.apply (offsetResolved [] bW).1 0).isSome = true))
    ∧ ((offsetResolved [] bW).2 = false → bW.2.1.apply bW.1 0 = Option.none →
        alookup stageW.uniformList "w" = alookup stageW.uniformList "w"
          ∧ "w" ∉ ([] : List String)) :=
  stage_update_rebuild_characterization stageW [] 0 "w" bW stageW []
    (by decide) (List.mem_singleton.mpr rfl) rfl

/-- C7 counterexample: converting a `ParameterValue` variant outside the
supported set does not produce an error value returned to the caller — the
conversion executes `unimplemented!()`, i.e. it panics, and no `Err` is ever
reported. -/
theorem uniform_tryFrom_unsupported_counterexample :
    UniformHolder.tryFrom DataHolder.unsupported false = ConvResult.panicked
    ∧ ¬ ∃ msg, UniformHolder.tryFrom DataHolder.unsupported false
        = ConvResult.err msg := by
  refine ⟨rfl, ?_⟩
  rintro ⟨msg, h⟩
  exact ConvResult.noConfusion h

/-- C7 (amended): converting a variant outside the supported set produces the
explicit `unimplemented!()` panic — an abort, not a returned error — for any
mipmap flag; no conversion of such a variant ever yields a value (so nothing
is silently coerced), and the Ingest phase of `ShaderView::update` aborts
rather than silently dropping such a parameter. -/
theorem uniform_tryFrom_unsupported_amended :
    (∀ mip : Bool,
      UniformHolder.tryFrom DataHolder.unsupported mip = ConvResult.panicked)
    ∧ (∀ (mip : Bool) (u : UniformHolder),
        UniformHolder.tryFrom DataHolder.unsupported mip ≠ ConvResult.ok u)
    ∧ (∀ (mips : List String) (inputName sourceId : String)
        (rest : List (String × DataHolder))
        (sources : List (String × List (String × DataHolder)))
        (holder : List (String × UniformHolder)),
        ingestSources mips
            ((inputName, (sourceId, DataHolder.unsupported) :: rest) :: sources)
            holder
          = IngestResult.panicked) := by
  refine ⟨fun _ => rfl, fun _ u h => ConvResult.noConfusion h, ?_⟩
  intro mips inputName sourceId rest sources holder
  simp [ingestSources, ingestEntries, UniformHolder.tryFrom]

/-- C6 counterexample: when the initial compile of the concatenated sources
fails, `Filter::new` does not surface the failure as a returned error — the
source `panic!`s with the parsed diagnostic, so construction aborts instead
of returning `Err`. -/
theorem filterNew_compile_failure_counterexample :
    filterNew (fun _ _ => Option.none) (640, 480) "vsrc" "fsrc" [] []
        = FilterNewResult.panicked "shader compilation failed"
    ∧ ¬ ∃ msg, filterNew (fun _ _ => Option.none) (640, 480) "vsrc" "fsrc" [] []
        = FilterNewResult.err msg := by
  refine ⟨rfl, ?_⟩
  rintro ⟨msg, h⟩
  exact FilterNewResult.noConfusion h

/-- C6 (amended): a failed initial compile makes construction fail by
*panicking* (a Rust `panic!` abort), not by returning an error — both through
`Filter::new` directly and through `Filter::from_config` once every shader
fragment file has been resolved;  no `Filter` value exists without an initial
successful compile: a constructed filter's program is exactly the successful
compile of its concatenated sources. -/
theorem filterNew_compile_failure_amended
    (compile : String → String → Option Program)
    (fileText : String → Option String) (pathList : List String)
    (config : FilterConfig) (resolution : ℕ × ℕ) (vt ft : String)
    (inputs : List String)
    (uh : List (String × UniformHolder × Option Sampling)) :
    (compile vt ft = none →
      filterNew compile resolution vt ft inputs uh
        = FilterNewResult.panicked "shader compilation failed")
    ∧ (∀ f, filterNew compile resolution vt ft inputs uh = FilterNewResult.ok f →
        compile vt ft = some f.program ∧ f.vertexText = vt ∧ f.fragmentText = ft)
    ∧ (∀ vtexts ftexts uh',
        resolveShaderFiles fileText pathList config.vertexShaderFiles = some vtexts →
        resolveShaderFiles fileText pathList config.fragmentShaderFiles = some ftexts →
        filterConfigUniforms config.variableDefaults = some uh' →
        compile (String.intercalate "\n" vtexts) (String.intercalate "\n" ftexts)
          = none →
        filterFromConfig fileText compile pathList config resolution
          = FilterNewResult.panicked "shader compilation failed") := by
  refine ⟨?_, ?_, ?_⟩
  · intro h
    simp [filterNew, h]
  · intro f hf
    rcases hc : compile vt ft with _ | p
    · rw [filterNew, hc] at hf
      cases hf
    · rw [filterNew, hc] at hf
      cases hf
      exact ⟨rfl, rfl, rfl⟩
  · intro vtexts ftexts uh' hv hfr hu hc
    rw [filterFromConfig, hv, hfr, hu]
    simp [filterNew, hc]

/-- Concrete instance of `filterNew_compile_failure_amended`: with both
fragment files of `configW` present in the project root and a compiler that
rejects the concatenated source, `from_config` aborts with the panic. -/
theorem filterNew_compile_failure_amended_witness :
    filterFromConfig fileTextW (fun _ _ => Option.none) ["proj", "lib"] configW
        (640, 480)
      = FilterNewResult.panicked "shader compilation failed" :=
  (filterNew_compile_failure_amended (fun _ _ => Option.none) fileTextW
      ["proj", "lib"] configW (640, 480) "" "" [] []).2.2 ["VT"] ["FT"] []
    (by decide) (by decide) rfl rfl

/-- C5 counterexample: after a failed recompilation the previously compiled
program is indeed unchanged, but a subsequent `render` does *not* behave
identically to a render performed immediately before the failed update:
`Filter::update` unconditionally re-inserts the six built-in default
uniforms, so on a freshly constructed filter the failed update changes the
uniform set submitted by `render`. -/
theorem filter_update_failed_compile_counterexample :
    (ShaderFilter.update (fun _ _ => Option.none) true false "badsrc" "fsrc" fX).program
        = fX.program
    ∧ (ShaderFilter.update (fun _ _ => Option.none) true false "badsrc" "fsrc"
          fX).renderObservable [] []
        ≠ fX.renderObservable [] [] := by
  refine ⟨rfl, ?_⟩
  decide

/-- C5 (amended): when recompilation of the changed source fails,
`Filter::update` returns normally with the previously compiled program left
unchanged, and every subsequent `render` draws with the same program as
before the failed update; the program field is replaced only on a successful
compile.  However, the update still refreshes the six built-in default
uniforms from the filter's current fields, so the uniform *values* bound by a
subsequent render may differ from a render performed immediately before the
update. -/
theorem filter_update_failed_compile_amended
    (compile : String → String → Option Program) (vc fc : Bool) (nv nf : String)
    (f : ShaderFilter)
    (hfail : compile (if vc then nv else f.vertexText)
        (if fc then nf else f.fragmentText) = none) :
    (ShaderFilter.update compile vc fc nv nf f).program = f.program
    ∧ (∀ iu rb, ((ShaderFilter.update compile vc fc nv nf f).renderObservable iu rb).1
        = (f.renderObservable iu rb).1)
    ∧ (ShaderFilter.update compile vc fc nv nf f).uniformHolder
        = filterDefaultInserts { f with
            vertexText := if vc then nv else f.vertexText,
            fragmentText := if fc then nf else f.fragmentText }
    ∧ (∀ (compile2 : String → String → Option Program) (vc2 fc2 : Bool)
        (nv2 nf2 : String),
        (ShaderFilter.update compile2 vc2 fc2 nv2 nf2 f).program ≠ f.program →
        compile2 (if vc2 then nv2 else f.vertexText)
            (if fc2 then nf2 else f.fragmentText)
          = some ((ShaderFilter.update compile2 vc2 fc2 nv2 nf2 f).program)) := by
  have hprog : (ShaderFilter.update compile vc fc nv nf f).program = f.program := by
    by_cases h : (vc || fc) = true
    · simp [ShaderFilter.update, h, hfail]
    · simp [ShaderFilter.update, h]
  refine ⟨hprog, ?_, ?_, ?_⟩
  · intro iu rb
    simpa [ShaderFilter.renderObservable] using hprog
  · by_cases h : (vc || fc) = true
    · simp [ShaderFilter.update, h, hfail, filterDefaultInserts]
    · simp [ShaderFilter.update, h, filterDefaultInserts]
  · intro compile2 vc2 fc2 nv2 nf2 hne
    by_cases h : (vc2 || fc2) = true
    · rcases hc : compile2 (if vc2 then nv2 else f.vertexText)
          (if fc2 then nf2 else f.fragmentText) with _ | p
      · exact absurd (by simp [ShaderFilter.update, h, hc]) hne
      · have hp : (ShaderFilter.update compile2 vc2 fc2 nv2 nf2 f).program = p := by
          simp [ShaderFilter.update, h, hc]
        rw [hp]
    · exact absurd (by simp [ShaderFilter.update, h]) hne

/-- Concrete instance of `filter_update_failed_compile_amended`: a failed
recompile of `fX` leaves its program unchanged. -/
theorem filter_update_failed_compile_amended_witness :
    (ShaderFilter.update (fun _ _ => Option.none) true false "badsrc" "zz" fX).program
      = fX.program :=
  (filter_update_failed_compile_amended (fun _ _ => Option.none) true false
    "badsrc" "zz" fX rfl).1

theorem alookup_isSome_iff {α : Type} (l : List (String × α)) (nm : String) :
    (alookup l nm).isSome = true ↔ nm ∈ akeys l := by
  induction l with
  | nil => simp [alookup, akeys]
  | cons hd tl ih =>
      obtain ⟨k, v⟩ := hd
      by_cases h : k = nm
      · simp [alookup, akeys, h]
      · have h' : ¬ nm = k := fun hh => h hh.symm
        simp [alookup, akeys, h, h', ih]

theorem boundProv_append_mem (a b : AssembledUniforms) (nm : String) (p : Provenance) :
    p ∈ boundProv (a.append b) nm ↔ p ∈ boundProv a nm ∨ p ∈ boundProv b nm := by
  simp only [boundProv, boundWithProv, AssembledUniforms.append, List.map_append,
    List.filterMap_append, List.mem_append]
  tauto

theorem boundProv_append_len (a b : AssembledUniforms) (nm : String) :
    (boundProv (a.append b) nm).length
      = (boundProv a nm).length + (boundProv b nm).length := by
  simp only [boundProv, boundWithProv, AssembledUniforms.append, List.map_append,
    List.filterMap_append, List.length_append]
  omega

theorem boundProv_empty (nm : String) :
    boundProv AssembledUniforms.empty nm = [] := rfl

theorem boundProv_bindValue_ne (prov : Provenance) (n : String) (v : UniformHolder)
    (samp : Option Sampling) (nm' : String) (hn : nm' ≠ n) :
    boundProv (bindValue prov n v samp) nm' = [] := by
  have hn' : ¬ n = nm' := fun hh => hn hh.symm
  rcases v <;> rcases samp <;>
    simp [bindValue, boundProv, boundWithProv, AssembledUniforms.empty, hn']

theorem boundProv_bindValue (prov : Provenance) (n : String) (v : UniformHolder)
    (samp : Option Sampling) (nm' : String) (p : Provenance)
    (h : p ∈ boundProv (bindValue prov n v samp) nm') : nm' = n ∧ p = prov := by
  by_cases hn : nm' = n
  · subst hn
    refine ⟨rfl, ?_⟩
    rcases v <;> rcases samp <;>
      simp [bindValue, boundProv, boundWithProv, AssembledUniforms.empty] at h <;>
      simp_all
  · rw [boundProv_bindValue_ne prov n v samp nm' hn] at h
    cases h

theorem boundProv_bindValue_len (prov : Provenance) (n : String) (v : UniformHolder)
    (samp : Option Sampling) (nm' : String) :
    (boundProv (bindValue prov n v samp) nm').length ≤ 1 := by
  by_cases hn : nm' = n
  · subst hn
    rcases v <;> rcases samp <;>
      simp [bindValue, boundProv, boundWithProv, AssembledUniforms.empty]
  · rw [boundProv_bindValue_ne prov n v samp nm' hn]
    simp

theorem boundProv_single_rt (n : String) (t : ℕ) (s : Sampling) (nm : String)
    (p : Provenance) (h : p ∈ boundProv ⟨[], [(n, t, s)], [], []⟩ nm) :
    nm = n ∧ p = Provenance.fromRenderTarget := by
  by_cases hn : n = nm <;> simp [boundProv, boundWithProv, hn] at h <;> simp_all

theorem boundProv_single_rt_ne (n : String) (t : ℕ) (s : Sampling) (nm : String)
    (hn : nm ≠ n) : boundProv ⟨[], [(n, t, s)], [], []⟩ nm = [] := by
  have hn' : ¬ n = nm := fun hh => hn hh.symm
  simp [boundProv, boundWithProv, hn']

theorem boundProv_single_rt_len (n : String) (t : ℕ) (s : Sampling) (nm : String) :
    (boundProv ⟨[], [(n, t, s)], [], []⟩ nm).length ≤ 1 := by
  by_cases hn : n = nm <;> simp [boundProv, boundWithProv, hn]

theorem loopOne_loaded (iu : List (String × UniformHolder × Option Sampling))
    (rb : List (String × ℕ × Option Sampling)) :
    ∀ l, (renderLoopOne iu rb l).2
      = l.filter (fun n => rbProvidesSampled rb n || iuProvides iu n)
  | [] => rfl
  | nm0 :: rest => by
      rcases hrb : alookup rb nm0 with _ | ⟨t, samp⟩
      · rcases hiu : alookup iu nm0 with _ | ⟨v, vsamp⟩ <;>
          simp [renderLoopOne, hrb, hiu, rbProvidesSampled, iuProvides,
            loopOne_loaded iu rb rest]
      · rcases samp with _ | s
        · rcases hiu : alookup iu nm0 with _ | ⟨v, vsamp⟩ <;>
            simp [renderLoopOne, hrb, hiu, rbProvidesSampled, iuProvides,
              loopOne_loaded iu rb rest]
        · simp [renderLoopOne, hrb, rbProvidesSampled, iuProvides,
            loopOne_loaded iu rb rest]

theorem loopOne_mem (iu : List (String × UniformHolder × Option Sampling))
    (rb : List (String × ℕ × Option Sampling)) :
    ∀ (l : List String) (nm : String) (p : Provenance),
      p ∈ boundProv (renderLoopOne iu rb l).1 nm →
      nm ∈ l ∧ ((rbProvidesSampled rb nm = true ∧ p = Provenance.fromRenderTarget)
        ∨ (rbProvidesSampled rb nm = false ∧ iuProvides iu nm = true
            ∧ p = Provenance.fromInputValue))
  | [] => by
      intro nm p h
      simp [renderLoopOne, boundProv_empty] at h
  | nm0 :: rest => by
      intro nm p h
      rcases hrb : alookup rb nm0 with _ | ⟨t, samp⟩
      · rcases hiu : alookup iu nm0 with _ | ⟨v, vsamp⟩
        · have hres : (renderLoopOne iu rb (nm0 :: rest)).1
              = (renderLoopOne iu rb rest).1 := by
            simp [renderLoopOne, hrb, hiu]
          rw [hres] at h
          obtain ⟨hm, hrest⟩ := loopOne_mem iu rb rest nm p h
          exact ⟨List.mem_cons_of_mem _ hm, hrest⟩
        · have hres : (renderLoopOne iu rb (nm0 :: rest)).1
              = (bindValue .fromInputValue nm0 v vsamp).append
                  (renderLoopOne iu rb rest).1 := by
            simp [renderLoopOne, hrb, hiu]
          rw [hres, boundProv_append_mem] at h
          rcases h with h | h
          · obtain ⟨rfl, rfl⟩ := boundProv_bindValue _ _ _ _ _ _ h
            refine ⟨List.mem_cons_self _ _, Or.inr ⟨?_, ?_, rfl⟩⟩
            · simp [rbProvidesSampled, hrb]
            · simp [iuProvides, hiu]
          · obtain ⟨hm, hrest⟩ := loopOne_mem iu rb rest nm p h
            exact ⟨List.mem_cons_of_mem _ hm, hrest⟩
      · rcases samp with _ | s
        · rcases hiu : alookup iu nm0 with _ | ⟨v, vsamp⟩
          · have hres : (renderLoopOne iu rb (nm0 :: rest)).1
                = (renderLoopOne iu rb rest).1 := by
              simp [renderLoopOne, hrb, hiu]
            rw [hres] at h
            obtain ⟨hm, hrest⟩ := loopOne_mem iu rb rest nm p h
            exact ⟨List.mem_cons_of_mem _ hm, hrest⟩
          · have hres : (renderLoopOne iu rb (nm0 :: rest)).1
                = (bindValue .fromInputValue nm0 v vsamp).append
                    (renderLoopOne iu rb rest).1 := by
              simp [renderLoopOne, hrb, hiu]
            rw [hres, boundProv_append_mem] at h
            rcases h with h | h
            · obtain ⟨rfl, rfl⟩ := boundProv_bindValue _ _ _ _ _ _ h
              refine ⟨List.mem_cons_self _ _, Or.inr ⟨?_, ?_, rfl⟩⟩
              · simp [rbProvidesSampled, hrb]
              · simp [iuProvides, hiu]
            · obtain ⟨hm, hrest⟩ := loopOne_mem iu rb rest nm p h
              exact ⟨List.mem_cons_of_mem _ hm, hrest⟩
        · have hres : (renderLoopOne iu rb (nm0 :: rest)).1
              = (AssembledUniforms.mk [] [(nm0, t, s)] [] []).append
                  (renderLoopOne iu rb rest).1 := by
            simp [renderLoopOne, hrb]
          rw [hres, boundProv_append_mem] at h
          rcases h with h | h
          · obtain ⟨rfl, rfl⟩ := boundProv_single_rt _ _ _ _ _ h
            refine ⟨List.mem_cons_self _ _, Or.inl ⟨?_, rfl⟩⟩
            simp [rbProvidesSampled, hrb]
          · obtain ⟨hm, hrest⟩ := loopOne_mem iu rb rest nm p h
            exact ⟨List.mem_cons_of_mem _ hm, hrest⟩

theorem loopOne_len (iu : List (String × UniformHolder × Option Sampling))
    (rb : List (String × ℕ × Option Sampling)) :
    ∀ (l : List String) (nm : String), l.Nodup →
      (boundProv (renderLoopOne iu rb l).1 nm).length ≤ 1
      ∧ (nm ∉ l → (boundProv (renderLoopOne iu rb l).1 nm).length = 0)
  | [] => by
      intro nm _
      exact ⟨by simp [renderLoopOne, boundProv_empty], fun _ => by
        simp [renderLoopOne, boundProv_empty]⟩
  | nm0 :: rest => by
      intro nm hnd
      obtain ⟨hn0, hndr⟩ := List.nodup_cons.mp hnd
      have ih := loopOne_len iu rb rest nm hndr
      have hsplit : ∀ X : AssembledUniforms,
          (renderLoopOne iu rb (nm0 :: rest)).1
            = X.append (renderLoopOne iu rb rest).1 →
          (boundProv X nm).length ≤ 1 →
          (nm ≠ nm0 → (boundProv X nm).length = 0) →
          (boundProv (renderLoopOne iu rb (nm0 :: rest)).1 nm).length ≤ 1
          ∧ (nm ∉ nm0 :: rest →
              (boundProv (renderLoopOne iu rb (nm0 :: rest)).1 nm).length = 0) := by
        intro X hres hle hne
        rw [hres, boundProv_append_len]
        constructor
        · by_cases hnm : nm = nm0
          · subst hnm
            have h0 : nm ∉ rest := hn0
            have := ih.2 h0
            omega
          · have := hne hnm
            have := ih.1
            omega
        · intro hnin
          have hne1 : nm ≠ nm0 := fun hh => hnin (hh ▸ List.mem_cons_self _ _)
          have hne2 : nm ∉ rest := fun hh => hnin (List.mem_cons_of_mem _ hh)
          have := hne hne1
          have := ih.2 hne2
          omega
      rcases hrb : alookup rb nm0 with _ | ⟨t, samp⟩
      · rcases hiu : alookup iu nm0 with _ | ⟨v, vsamp⟩
        · have hres : (renderLoopOne iu rb (nm0 :: rest)).1
              = (renderLoopOne iu rb rest).1 := by
            simp [renderLoopOne, hrb, hiu]
          rw [hres]
          exact ⟨ih.1, fun hnin =>
            ih.2 (fun hh => hnin (List.mem_cons_of_mem _ hh))⟩
        · exact hsplit (bindValue .fromInputValue nm0 v vsamp)
            (by simp [renderLoopOne, hrb, hiu])
            (boundProv_bindValue_len _ _ _ _ _)
            (fun hne => by rw [boundProv_bindValue_ne _ _ _ _ _ hne]; rfl)
      · rcases samp with _ | s
        · rcases hiu : alookup iu nm0 with _ | ⟨v, vsamp⟩
          · have hres : (renderLoopOne iu rb (nm0 :: rest)).1
                = (renderLoopOne iu rb rest).1 := by
              simp [renderLoopOne, hrb, hiu]
            rw [hres]
            exact ⟨ih.1, fun hnin =>
              ih.2 (fun hh => hnin (List.mem_cons_of_mem _ hh))⟩
          · exact hsplit (bindValue .fromInputValue nm0 v vsamp)
              (by simp [renderLoopOne, hrb, hiu])
              (boundProv_bindValue_len _ _ _ _ _)
              (fun hne => by rw [boundProv_bindValue_ne _ _ _ _ _ hne]; rfl)
        · exact hsplit (AssembledUniforms.mk [] [(nm0, t, s)] [] [])
            (by simp [renderLoopOne, hrb])
            (boundProv_single_rt_len _ _ _ _)
            (fun hne => by rw [boundProv_single_rt_ne _ _ _ _ hne]; rfl)

theorem contains_eq_false_iff (l : List String) (a : String) :
    l.contains a = false ↔ a ∉ l := by
  rw [← Bool.not_eq_true]
  simp

theorem loopTwo_loaded (iu : List (String × UniformHolder × Option Sampling)) :
    ∀ (l loaded : List String), l.Nodup →
      (renderLoopTwo iu l loaded).2
        = l.filter (fun n => !loaded.contains n && iuProvides iu n)
  | [], loaded => by intro _; rfl
  | nm0 :: rest, loaded => by
      intro hnd
      obtain ⟨hn0, hndr⟩ := List.nodup_cons.mp hnd
      by_cases hc : nm0 ∈ loaded
      · simp [renderLoopTwo, hc, loopTwo_loaded iu rest loaded hndr]
      · rcases hiu : alookup iu nm0 with _ | ⟨v, samp⟩
        · simp [renderLoopTwo, hc, hiu, loopTwo_loaded iu rest loaded hndr,
            iuProvides]
        · have hrec := loopTwo_loaded iu rest (loaded ++ [nm0]) hndr
          simp [renderLoopTwo, hc, hiu, hrec, iuProvides]
          apply List.filter_congr
          intro x hx
          have hxne : ¬ x = nm0 := fun hh => hn0 (hh ▸ hx)
          simp [hxne]

theorem loopTwo_mem (iu : List (String × UniformHolder × Option Sampling)) :
    ∀ (l loaded : List String) (nm : String) (p : Provenance),
      p ∈ boundProv (renderLoopTwo iu l loaded).1 nm →
      nm ∈ l ∧ loaded.contains nm = false ∧ iuProvides iu nm = true
        ∧ p = Provenance.fromInputValue
  | [], loaded => by
      intro nm p h
      simp [renderLoopTwo, boundProv_empty] at h
  | nm0 :: rest, loaded => by
      intro nm p h
      by_cases hc : nm0 ∈ loaded
      · have hres : (renderLoopTwo iu (nm0 :: rest) loaded).1
            = (renderLoopTwo iu rest loaded).1 := by
          simp [renderLoopTwo, hc]
        rw [hres] at h
        obtain ⟨h1, h2, h3, h4⟩ := loopTwo_mem iu rest loaded nm p h
        exact ⟨List.mem_cons_of_mem _ h1, h2, h3, h4⟩
      · rcases hiu : alookup iu nm0 with _ | ⟨v, samp⟩
        · have hres : (renderLoopTwo iu (nm0 :: rest) loaded).1
              = (renderLoopTwo iu rest loaded).1 := by
            simp [renderLoopTwo, hc, hiu]
          rw [hres] at h
          obtain ⟨h1, h2, h3, h4⟩ := loopTwo_mem iu rest loaded nm p h
          exact ⟨List.mem_cons_of_mem _ h1, h2, h3, h4⟩
        · have hres : (renderLoopTwo iu (nm0 :: rest) loaded).1
              = (bindValue .fromInputValue nm0 v samp).append
                  (renderLoopTwo iu rest (loaded ++ [nm0])).1 := by
            simp [renderLoopTwo, hc, hiu]
          rw [hres, boundProv_append_mem] at h
          rcases h with h | h
          · obtain ⟨rfl, rfl⟩ := boundProv_bindValue _ _ _ _ _ _ h
            refine ⟨List.mem_cons_self _ _, (contains_eq_false_iff _ _).mpr hc,
              ?_, rfl⟩
            simp [iuProvides, hiu]
          · obtain ⟨h1, h2, h3, h4⟩ := loopTwo_mem iu rest (loaded ++ [nm0]) nm p h
            have hnotin : nm ∉ loaded ++ [nm0] := (contains_eq_false_iff _ _).mp h2
            refine ⟨List.mem_cons_of_mem _ h1, ?_, h3, h4⟩
            exact (contains_eq_false_iff _ _).mpr
              (fun hh => hnotin (List.mem_append_left _ hh))

theorem loopTwo_len (iu : List (String × UniformHolder × Option Sampling)) :
    ∀ (l loaded : List String) (nm : String),
      (boundProv (renderLoopTwo iu l loaded).1 nm).length ≤ 1
      ∧ (nm ∉ l → (boundProv (renderLoopTwo iu l loaded).1 nm).length = 0)
      ∧ (loaded.contains nm = true →
          (boundProv (renderLoopTwo iu l loaded).1 nm).length = 0)
  | [], loaded => by
      intro nm
      refine ⟨?_, fun _ => ?_, fun _ => ?_⟩ <;>
        simp [renderLoopTwo, boundProv_empty]
  | nm0 :: rest, loaded => by
      intro nm
      by_cases hc : nm0 ∈ loaded
      · have hres : (renderLoopTwo iu (nm0 :: rest) loaded).1
            = (renderLoopTwo iu rest loaded).1 := by
          simp [renderLoopTwo, hc]
        rw [hres]
        obtain ⟨ih1, ih2, ih3⟩ := loopTwo_len iu rest loaded nm
        exact ⟨ih1, fun hnin => ih2 (fun hh => hnin (List.mem_cons_of_mem _ hh)), ih3⟩
      · rcases hiu : alookup iu nm0 with _ | ⟨v, samp⟩
        · have hres : (renderLoopTwo iu (nm0 :: rest) loaded).1
              = (renderLoopTwo iu rest loaded).1 := by
            simp [renderLoopTwo, hc, hiu]
          rw [hres]
          obtain ⟨ih1, ih2, ih3⟩ := loopTwo_len iu rest loaded nm
          exact ⟨ih1, fun hnin => ih2 (fun hh => hnin (List.mem_cons_of_mem _ hh)), ih3⟩
        · have hres : (renderLoopTwo iu (nm0 :: rest) loaded).1
              = (bindValue .fromInputValue nm0 v samp).append
                  (renderLoopTwo iu rest (loaded ++ [nm0])).1 := by
            simp [renderLoopTwo, hc, hiu]
          rw [hres, boundProv_append_len]
          obtain ⟨ih1, ih2, ih3⟩ := loopTwo_len iu rest (loaded ++ [nm0]) nm
          have hble := boundProv_bindValue_len Provenance.fromInputValue nm0 v samp nm
          refine ⟨?_, ?_, ?_⟩
          · by_cases hnm : nm = nm0
            · subst hnm
              have hin : (loaded ++ [nm]).contains nm = true := by simp
              have := ih3 hin
              omega
            · have h0 : boundProv (bindValue .fromInputValue nm0 v samp) nm = [] :=
                boundProv_bindValue_ne _ _ _ _ _ hnm
              rw [h0]
              simpa using ih1
          · intro hnin
            have hne1 : nm ≠ nm0 := fun hh => hnin (hh ▸ List.mem_cons_self _ _)
            have hne2 : nm ∉ rest := fun hh => hnin (List.mem_cons_of_mem _ hh)
            have h0 : boundProv (bindValue .fromInputValue nm0 v samp) nm = [] :=
              boundProv_bindValue_ne _ _ _ _ _ hne1
            rw [h0]
            simpa using ih2 hne2
          · intro hcc
            have hne1 : nm ≠ nm0 := by
              intro hh
              subst hh
              exact hc (by simpa using hcc)
            have h0 : boundProv (bindValue .fromInputValue nm0 v samp) nm = [] :=
              boundProv_bindValue_ne _ _ _ _ _ hne1
            rw [h0]
            have hcc' : (loaded ++ [nm0]).contains nm = true := by
              have hmem : nm ∈ loaded := by simpa using hcc
              simp [hmem]
            simpa using ih3 hcc'

theorem loopThree_mem :
    ∀ (ul : List (String × UniformHolder × Option Sampling))
      (loaded : List String) (nm : String) (p : Provenance),
      p ∈ boundProv (renderLoopThree ul loaded) nm →
      nm ∈ akeys ul ∧ loaded.contains nm = false ∧ p = Provenance.fromDefault
  | [], loaded => by
      intro nm p h
      simp [renderLoopThree, boundProv_empty] at h
  | (nm0, v, samp) :: rest, loaded => by
      intro nm p h
      by_cases hc : nm0 ∈ loaded
      · have hres : renderLoopThree ((nm0, v, samp) :: rest) loaded
            = renderLoopThree rest loaded := by
          simp [renderLoopThree, hc]
        rw [hres] at h
        obtain ⟨h1, h2, h3⟩ := loopThree_mem rest loaded nm p h
        exact ⟨by simp [akeys] at h1 ⊢; exact Or.inr h1, h2, h3⟩
      · have hres : renderLoopThree ((nm0, v, samp) :: rest) loaded
            = (bindValue .fromDefault nm0 v samp).append
                (renderLoopThree rest loaded) := by
          simp [renderLoopThree, hc]
        rw [hres, boundProv_append_mem] at h
        rcases h with h | h
        · obtain ⟨rfl, rfl⟩ := boundProv_bindValue _ _ _ _ _ _ h
          exact ⟨by simp [akeys], (contains_eq_false_iff _ _).mpr hc, rfl⟩
        · obtain ⟨h1, h2, h3⟩ := loopThree_mem rest loaded nm p h
          exact ⟨by simp [akeys] at h1 ⊢; exact Or.inr h1, h2, h3⟩

theorem loopThree_len :
    ∀ (ul : List (String × UniformHolder × Option Sampling))
      (loaded : List String) (nm : String), (akeys ul).Nodup →
      (boundProv (renderLoopThree ul loaded) nm).length ≤ 1
      ∧ (nm ∉ akeys ul → (boundProv (renderLoopThree ul loaded) nm).length = 0)
      ∧ (loaded.contains nm = true →
          (boundProv (renderLoopThree ul loaded) nm).length = 0)
  | [], loaded => by
      intro nm _
      refine ⟨?_, fun _ => ?_, fun _ => ?_⟩ <;>
        simp [renderLoopThree, boundProv_empty]
  | (nm0, v, samp) :: rest, loaded => by
      intro nm hnd
      have hcons : nm0 ∉ akeys rest ∧ (akeys rest).Nodup :=
        List.nodup_cons.mp (by simpa [akeys] using hnd)
      obtain ⟨ih1, ih2, ih3⟩ := loopThree_len rest loaded nm hcons.2
      by_cases hc : nm0 ∈ loaded
      · have hres : renderLoopThree ((nm0, v, samp) :: rest) loaded
            = renderLoopThree rest loaded := by
          simp [renderLoopThree, hc]
        rw [hres]
        refine ⟨ih1, fun hnin => ih2 ?_, ih3⟩
        intro hh
        exact hnin (by simp [akeys] at hh ⊢; exact Or.inr hh)
      · have hres : renderLoopThree ((nm0, v, samp) :: rest) loaded
            = (bindValue .fromDefault nm0 v samp).append
                (renderLoopThree rest loaded) := by
          simp [renderLoopThree, hc]
        rw [hres, boundProv_append_len]
        have hble := boundProv_bindValue_len Provenance.fromDefault nm0 v samp nm
        refine ⟨?_, ?_, ?_⟩
        · by_cases hnm : nm = nm0
          · subst hnm
            have := ih2 hcons.1
            omega
          · have h0 : boundProv (bindValue .fromDefault nm0 v samp) nm = [] :=
              boundProv_bindValue_ne _ _ _ _ _ hnm
            rw [h0]
            simpa using ih1
        · intro hnin
          have hne1 : nm ≠ nm0 := by
            intro hh
            exact hnin (by simp [akeys, hh])
          have hne2 : nm ∉ akeys rest := by
            intro hh
            exact hnin (by simp [akeys] at hh ⊢; exact Or.inr hh)
          have h0 : boundProv (bindValue .fromDefault nm0 v samp) nm = [] :=
            boundProv_bindValue_ne _ _ _ _ _ hne1
          rw [h0]
          simpa using ih2 hne2
        · intro hcc
          have hne1 : nm ≠ nm0 := by
            intro hh
            subst hh
            exact hc (by simpa using hcc)
          have h0 : boundProv (bindValue .fromDefault nm0 v samp) nm = [] :=
            boundProv_bindValue_ne _ _ _ _ _ hne1
          rw [h0]
          simpa using ih3 hcc

theorem loopOne_congr (iu iu' : List (String × UniformHolder × Option Sampling))
    (rb rb' : List (String × ℕ × Option Sampling)) :
    ∀ l, (∀ n ∈ l, alookup iu n = alookup iu' n) →
      (∀ n ∈ l, alookup rb n = alookup rb' n) →
      renderLoopOne iu rb l = renderLoopOne iu' rb' l
  | [] => fun _ _ => rfl
  | nm0 :: rest => by
      intro hiu hrb
      have ih := loopOne_congr iu iu' rb rb' rest
        (fun n hn => hiu n (List.mem_cons_of_mem _ hn))
        (fun n hn => hrb n (List.mem_cons_of_mem _ hn))
      have h1 : alookup rb nm0 = alookup rb' nm0 := hrb nm0 (List.mem_cons_self _ _)
      have h2 : alookup iu nm0 = alookup iu' nm0 := hiu nm0 (List.mem_cons_self _ _)
      simp only [renderLoopOne, h1, h2, ih]

theorem loopTwo_congr (iu iu' : List (String × UniformHolder × Option Sampling)) :
    ∀ (l loaded : List String), (∀ n ∈ l, alookup iu n = alookup iu' n) →
      renderLoopTwo iu l loaded = renderLoopTwo iu' l loaded
  | [], loaded => fun _ => rfl
  | nm0 :: rest, loaded => by
      intro hiu
      have ih : ∀ ld, renderLoopTwo iu rest ld = renderLoopTwo iu' rest ld :=
        fun ld => loopTwo_congr iu iu' rest ld
          (fun n hn => hiu n (List.mem_cons_of_mem _ hn))
      have h2 : alookup iu nm0 = alookup iu' nm0 := hiu nm0 (List.mem_cons_self _ _)
      simp only [renderLoopTwo, h2, ih]

theorem mem_boundNames (a : AssembledUniforms) (nm : String)
    (h : nm ∈ boundNames a) : ∃ p, p ∈ boundProv a nm := by
  simp only [boundNames, List.mem_map] at h
  obtain ⟨e, he, rfl⟩ := h
  refine ⟨e.2, ?_⟩
  simp only [boundProv, List.mem_filterMap]
  exact ⟨e, he, by simp⟩

/-- C10: a uniform name is bound by `Filter::render` only if it appears in
the filter's declared inputs list or among the keys of its own default
uniform cache; caller-supplied values and render-target textures under any
other name are silently ignored — two calls whose inputs agree on the
relevant names (declared inputs and default-cache keys; render targets are
only ever consulted for declared inputs) assemble identical uniform sets. -/
theorem filter_render_bound_names
    (f : ShaderFilter)
    (iu iu' : List (String × UniformHolder × Option Sampling))
    (rb rb' : List (String × ℕ × Option Sampling))
    (hiu : ∀ n, n ∈ f.inputs ∨ n ∈ akeys f.uniformHolder →
        alookup iu n = alookup iu' n)
    (hrb : ∀ n, n ∈ f.inputs → alookup rb n = alookup rb' n) :
    (∀ nm ∈ boundNames (f.renderUniforms iu rb),
        nm ∈ f.inputs ∨ nm ∈ akeys f.uniformHolder)
    ∧ f.renderUniforms iu rb = f.renderUniforms iu' rb' := by
  have hdef : f.renderUniforms iu rb
      = (renderLoopOne iu rb f.inputs).1.append
          ((renderLoopTwo iu (akeys f.uniformHolder)
              (renderLoopOne iu rb f.inputs).2).1.append
            (renderLoopThree f.uniformHolder
              ((renderLoopOne iu rb f.inputs).2
                ++ (renderLoopTwo iu (akeys f.uniformHolder)
                    (renderLoopOne iu rb f.inputs).2).2))) := rfl
  constructor
  · intro nm hm
    obtain ⟨p, hp⟩ := mem_boundNames _ _ hm
    rw [hdef, boundProv_append_mem, boundProv_append_mem] at hp
    rcases hp with h | h | h
    · exact Or.inl (loopOne_mem iu rb f.inputs nm p h).1
    · exact Or.inr (loopTwo_mem iu (akeys f.uniformHolder) _ nm p h).1
    · exact Or.inr (loopThree_mem f.uniformHolder _ nm p h).1
  · have h1 : renderLoopOne iu rb f.inputs = renderLoopOne iu' rb' f.inputs :=
      loopOne_congr iu iu' rb rb' f.inputs
        (fun n hn => hiu n (Or.inl hn)) (fun n hn => hrb n hn)
    have h2 : ∀ ld, renderLoopTwo iu (akeys f.uniformHolder) ld
        = renderLoopTwo iu' (akeys f.uniformHolder) ld :=
      fun ld => loopTwo_congr iu iu' (akeys f.uniformHolder) ld
        (fun n hn => hiu n (Or.inr hn))
    simp only [ShaderFilter.renderUniforms, h1, h2]

/-- Concrete instance of `filter_render_bound_names`: a caller value and a
render-target texture named "zzz" — known neither to `fP`'s inputs nor to
its default cache — do not change the assembled uniform set. -/
theorem filter_render_bound_names_witness :
    fP.renderUniforms iuJunk rbJunk = fP.renderUniforms iuP [] :=
  (filter_render_bound_names fP iuJunk iuP rbJunk []
    (by
      intro n hn
      rcases hn with h | h
      · simp [fP] at h
      · have hu : n = "u" := by simpa [fP, akeys] using h
        subst hu
        decide)
    (by
      intro n hn
      simp [fP] at hn)).2

/-- C4 counterexample: on a filter whose default cache holds "u" but whose
declared inputs list does not, with the caller supplying *both* a
render-target texture and an input value for "u", the value bound comes from
the caller's input value — although the render-target category (the claim's
highest priority) provides the name.  The claim's priority rule is violated
because render targets are only ever consulted for declared inputs. -/
theorem filter_render_priority_counterexample :
    claimPriorityRespected fP iuP rbP = false
    ∧ claimPriorityCategory fP iuP rbP "u" = some Provenance.fromRenderTarget
    ∧ boundWithProv (fP.renderUniforms iuP rbP)
        = [("u", Provenance.fromInputValue)] := by
  refine ⟨by decide, by decide, by decide⟩

/-- C4 (amended): every uniform name bound during `Filter::render` is bound
at most once (never overwritten), and the value bound comes from the
category `renderPriorityCategory` assigns to that name: for a name in the
declared inputs list the priority is render-target texture (when supplied
with a sampler pair) over caller-supplied input value over the filter's own
default cache; for a name only in the default cache, render targets are
never consulted and the priority is caller-supplied input value over
default. -/
theorem filter_render_priority_amended
    (f : ShaderFilter)
    (iu : List (String × UniformHolder × Option Sampling))
    (rb : List (String × ℕ × Option Sampling))
    (hndI : f.inputs.Nodup) (hndU : (akeys f.uniformHolder).Nodup) :
    (∀ nm p, p ∈ boundProv (f.renderUniforms iu rb) nm →
        renderPriorityCategory f iu rb nm = some p)
    ∧ (∀ nm, (boundProv (f.renderUniforms iu rb) nm).length ≤ 1) := by
  have hdef : f.renderUniforms iu rb
      = (renderLoopOne iu rb f.inputs).1.append
          ((renderLoopTwo iu (akeys f.uniformHolder)
              (renderLoopOne iu rb f.inputs).2).1.append
            (renderLoopThree f.uniformHolder
              ((renderLoopOne iu rb f.inputs).2
                ++ (renderLoopTwo iu (akeys f.uniformHolder)
                    (renderLoopOne iu rb f.inputs).2).2))) := rfl
  have hload1 : (renderLoopOne iu rb f.inputs).2
      = f.inputs.filter (fun n => rbProvidesSampled rb n || iuProvides iu n) :=
    loopOne_loaded iu rb f.inputs
  have hload2 : (renderLoopTwo iu (akeys f.uniformHolder)
        (renderLoopOne iu rb f.inputs).2).2
      = (akeys f.uniformHolder).filter
          (fun n => !(renderLoopOne iu rb f.inputs).2.contains n
            && iuProvides iu n) :=
    loopTwo_loaded iu (akeys f.uniformHolder) _ hndU
  constructor
  · intro nm p hp
    rw [hdef, boundProv_append_mem, boundProv_append_mem] at hp
    rcases hp with h | h | h
    · obtain ⟨hin, hcase⟩ := loopOne_mem iu rb f.inputs nm p h
      rcases hcase with ⟨hrbs, rfl⟩ | ⟨hrbs, hiup, rfl⟩
      · simp [renderPriorityCategory, hin, hrbs]
      · simp [renderPriorityCategory, hin, hrbs, hiup]
    · obtain ⟨hkeys, hld, hiup, rfl⟩ := loopTwo_mem iu (akeys f.uniformHolder) _ nm p h
      have hnotin : nm ∉ f.inputs := by
        intro hin
        have hmemf : nm ∈ (renderLoopOne iu rb f.inputs).2 := by
          rw [hload1]
          exact List.mem_filter.mpr ⟨hin, by simp [hiup]⟩
        exact absurd hmemf ((contains_eq_false_iff _ _).mp hld)
      have hsome : (alookup f.uniformHolder nm).isSome = true :=
        (alookup_isSome_iff _ _).mpr hkeys
      simp [renderPriorityCategory, hnotin, hsome, hiup]
    · obtain ⟨hkeys, hld, rfl⟩ := loopThree_mem f.uniformHolder _ nm p h
      have hnotboth : nm ∉ (renderLoopOne iu rb f.inputs).2
          ∧ nm ∉ (renderLoopTwo iu (akeys f.uniformHolder)
              (renderLoopOne iu rb f.inputs).2).2 := by
        have h' := (contains_eq_false_iff _ _).mp hld
        exact ⟨fun hh => h' (List.mem_append_left _ hh),
          fun hh => h' (List.mem_append_right _ hh)⟩
      have hiup : iuProvides iu nm = false := by
        by_contra hne
        have hiup' : iuProvides iu nm = true := by
          cases hi : iuProvides iu nm
          · exact absurd hi hne
          · rfl
        apply hnotboth.2
        rw [hload2]
        refine List.mem_filter.mpr ⟨hkeys, ?_⟩
        simp [hiup', hnotboth.1]
      have hsome : (alookup f.uniformHolder nm).isSome = true :=
        (alookup_isSome_iff _ _).mpr hkeys
      by_cases hin : nm ∈ f.inputs
      · have hrbs : rbProvidesSampled rb nm = false := by
          by_contra hne
          have hrbs' : rbProvidesSampled rb nm = true := by
            cases hi : rbProvidesSampled rb nm
            · exact absurd hi hne
            · rfl
          apply hnotboth.1
          rw [hload1]
          exact List.mem_filter.mpr ⟨hin, by simp [hrbs']⟩
        simp [renderPriorityCategory, hin, hrbs, hiup, hsome]
      · simp [renderPriorityCategory, hin, hiup, hsome]
  · intro nm
    rw [hdef, boundProv_append_len, boundProv_append_len]
    obtain ⟨l1a, l1b⟩ := loopOne_len iu rb f.inputs nm hndI
    obtain ⟨l2a, l2b, l2c⟩ := loopTwo_len iu (akeys f.uniformHolder)
      (renderLoopOne iu rb f.inputs).2 nm
    obtain ⟨l3a, l3b, l3c⟩ := loopThree_len f.uniformHolder
      ((renderLoopOne iu rb f.inputs).2
        ++ (renderLoopTwo iu (akeys f.uniformHolder)
            (renderLoopOne iu rb f.inputs).2).2) nm hndU
    by_cases h1 : (boundProv (renderLoopOne iu rb f.inputs).1 nm).length = 0
    · by_cases h2 : (boundProv (renderLoopTwo iu (akeys f.uniformHolder)
          (renderLoopOne iu rb f.inputs).2).1 nm).length = 0
      · omega
      · have hnnil : boundProv (renderLoopTwo iu (akeys f.uniformHolder)
            (renderLoopOne iu rb f.inputs).2).1 nm ≠ [] := by
          intro hnil
          exact h2 (by rw [hnil]; rfl)
        obtain ⟨p, hp⟩ := List.exists_mem_of_ne_nil _ hnnil
        obtain ⟨hkeys, hld, hiup, _⟩ := loopTwo_mem iu (akeys f.uniformHolder) _ nm p hp
        have hmem2 : nm ∈ (renderLoopTwo iu (akeys f.uniformHolder)
            (renderLoopOne iu rb f.inputs).2).2 := by
          rw [hload2]
          exact List.mem_filter.mpr
            ⟨hkeys, by simp [hiup, (contains_eq_false_iff _ _).mp hld]⟩
        have hl3 : (boundProv (renderLoopThree f.uniformHolder
            ((renderLoopOne iu rb f.inputs).2
              ++ (renderLoopTwo iu (akeys f.uniformHolder)
                  (renderLoopOne iu rb f.inputs).2).2)) nm).length = 0 := by
          apply l3c
          simp [hmem2]
        omega
    · have hnnil : boundProv (renderLoopOne iu rb f.inputs).1 nm ≠ [] := by
        intro hnil
        exact h1 (by rw [hnil]; rfl)
      obtain ⟨p, hp⟩ := List.exists_mem_of_ne_nil _ hnnil
      obtain ⟨hin, hcase⟩ := loopOne_mem iu rb f.inputs nm p hp
      have hflag : (rbProvidesSampled rb nm || iuProvides iu nm) = true := by
        rcases hcase with ⟨hrbs, _⟩ | ⟨_, hiup, _⟩
        · simp [hrbs]
        · simp [hiup]
      have hmem1 : nm ∈ (renderLoopOne iu rb f.inputs).2 := by
        rw [hload1]
        exact List.mem_filter.mpr ⟨hin, hflag⟩
      have hl2 : (boundProv (renderLoopTwo iu (akeys f.uniformHolder)
          (renderLoopOne iu rb f.inputs).2).1 nm).length = 0 := by
        apply l2c
        simp [hmem1]
      have hl3 : (boundProv (renderLoopThree f.uniformHolder
          ((renderLoopOne iu rb f.inputs).2
            ++ (renderLoopTwo iu (akeys f.uniformHolder)
                (renderLoopOne iu rb f.inputs).2).2)) nm).length = 0 := by
        apply l3c
        simp [hmem1]
      omega

/-- Concrete instance of `filter_render_priority_amended`: on the
counterexample input the single bound entry for "u" carries exactly the
category the code's priority rule assigns — the caller-supplied input
value. -/
theorem filter_render_priority_amended_witness :
    renderPriorityCategory fP iuP rbP "u" = some Provenance.fromInputValue :=
  (filter_render_priority_amended fP iuP rbP (by decide) (by decide)).1
    "u" Provenance.fromInputValue (by decide)

theorem rotatePack_length (l : List ℕ) : (rotatePack l).length = l.length := by
  cases l <;> simp [rotatePack]

theorem rotatePack_perm (l : List ℕ) : (rotatePack l).Perm l := by
  cases l with
  | nil => rfl
  | cons t rest => simpa [rotatePack] using (List.perm_append_singleton t rest)

theorem rotatePack_two (a b : ℕ) : rotatePack [a, b] = [b, a] := rfl

theorem set_take_drop {α : Type} :
    ∀ (l : List α) (i : ℕ) (x : α), i < l.length →
      (l.set i x).take (i + 1) = l.take i ++ [x]
      ∧ (l.set i x).drop (i + 1) = l.drop (i + 1)
  | [], i, x, h => by simp at h
  | a :: t, 0, x, h => by simp
  | a :: t, i + 1, x, h => by
      obtain ⟨h1, h2⟩ := set_take_drop t i x (by simpa using h)
      refine ⟨?_, ?_⟩
      · simpa using congrArg (List.cons a) h1
      · simpa [List.set] using h2

theorem renderStagesGo_state (chain : List Stage) (fns : List String) :
    ∀ (stages : List Stage) (i : ℕ) (bl : List RenderBufferEntry),
      bl.length = i + stages.length →
      (renderStagesGo chain fns i stages bl).1
        = bl.take i ++ (bl.drop i).map (fun e => (rotatePack e.1, e.2))
  | [], i, bl, hlen => by
      simp at hlen
      have h1 : bl.take i = bl := List.take_of_length_le (by omega)
      have h2 : bl.drop i = [] := List.drop_eq_nil_of_le (by omega)
      simp [renderStagesGo, h1, h2]
  | stage :: rest, i, bl, hlen => by
      have hi : i < bl.length := by
        simp at hlen
        omega
      have hentry : bl[i]? = some bl[i] := List.getElem?_eq_getElem hi
      simp only [renderStagesGo, hentry]
      have hlen' : (bl.set i (rotatePack bl[i].1, bl[i].2)).length
          = (i + 1) + rest.length := by
        simp at hlen ⊢
        omega
      rw [renderStagesGo_state chain fns rest (i + 1) _ hlen']
      obtain ⟨ht, hd⟩ := set_take_drop bl i (rotatePack bl[i].1, bl[i].2) hi
      rw [ht, hd, List.drop_eq_getElem_cons hi, List.map_cons, List.append_assoc]
      rfl

theorem renderStages_buffers (sv : ShaderView)
    (hlen : sv.renderBufferList.length = sv.renderChain.length) :
    (sv.renderStages).1.renderBufferList
      = sv.renderBufferList.map (fun e => (rotatePack e.1, e.2))
    ∧ (sv.renderStages).1.renderChain = sv.renderChain
    ∧ (sv.renderStages).1.filterNames = sv.filterNames := by
  refine ⟨?_, rfl, rfl⟩
  show (renderStagesGo sv.renderChain sv.filterNames 0 sv.renderChain
      sv.renderBufferList).1 = _
  rw [renderStagesGo_state sv.renderChain sv.filterNames sv.renderChain 0
    sv.renderBufferList (by simpa using hlen)]
  simp

theorem rotatePack_iterate_two (a b : ℕ) :
    ∀ k : ℕ, rotatePack^[k] [a, b] = if k % 2 = 0 then [a, b] else [b, a]
  | 0 => rfl
  | k + 1 => by
      rw [Function.iterate_succ_apply', rotatePack_iterate_two a b k]
      by_cases h : k % 2 = 0
      · have h' : (k + 1) % 2 = 1 := by omega
        simp [h, h', rotatePack_two]
      · have h' : (k + 1) % 2 = 0 := by omega
        simp [h, h', rotatePack_two]

theorem rotatePack_iterate_front (pk : List ℕ) (hpk : pk.length = 2) (k : ℕ) :
    (rotatePack^[k] pk).getD 0 0 = pk.getD (k % 2) 0 := by
  match pk, hpk with
  | [a, b], _ =>
      rw [rotatePack_iterate_two a b k]
      by_cases h : k % 2 = 0
      · simp [h]
      · have h' : k % 2 = 1 := by omega
        simp [h, h']

theorem renderStages_iterate (sv : ShaderView)
    (hlen : sv.renderBufferList.length = sv.renderChain.length) :
    ∀ k : ℕ,
      (ShaderView.renderStagesState^[k] sv).renderBufferList
        = sv.renderBufferList.map (fun e => (rotatePack^[k] e.1, e.2))
      ∧ (ShaderView.renderStagesState^[k] sv).renderChain = sv.renderChain
      ∧ (ShaderView.renderStagesState^[k] sv).filterNames = sv.filterNames
  | 0 => by
      refine ⟨?_, rfl, rfl⟩
      simp
  | k + 1 => by
      obtain ⟨ih1, ih2, ih3⟩ := renderStages_iterate sv hlen k
      have hlen' : (ShaderView.renderStagesState^[k] sv).renderBufferList.length
          = (ShaderView.renderStagesState^[k] sv).renderChain.length := by
        rw [ih1, ih2, List.length_map]
        exact hlen
      obtain ⟨hb, hc, hf⟩ := renderStages_buffers (ShaderView.renderStagesState^[k] sv) hlen'
      rw [Function.iterate_succ_apply']
      refine ⟨?_, ?_, ?_⟩
      · show ((ShaderView.renderStagesState^[k] sv).renderStages).1.renderBufferList = _
        rw [hb, ih1, List.map_map]
        apply List.map_congr_left
        intro e _
        simp [Function.comp, Function.iterate_succ_apply']
      · show ((ShaderView.renderStagesState^[k] sv).renderStages).1.renderChain = _
        rw [hc, ih2]
      · show ((ShaderView.renderStagesState^[k] sv).renderStages).1.filterNames = _
        rw [hf, ih3]

theorem flatten_set_subset :
    ∀ (L : List (List ℕ)) (i : ℕ) (x : List ℕ),
      (∀ pk, L[i]? = some pk → x.Perm pk) →
      ∀ t, t ∈ (L.set i x).flatten → t ∈ L.flatten
  | [], i, x, _, t => by simp
  | pk :: rest, 0, x, hperm, t => by
      have hx : x.Perm pk := hperm pk (by simp)
      simp only [List.set, List.flatten_cons, List.mem_append]
      rintro (h | h)
      · exact Or.inl (hx.mem_iff.mp h)
      · exact Or.inr h
  | pk :: rest, i + 1, x, hperm, t => by
      simp only [List.set, List.flatten_cons, List.mem_append]
      rintro (h | h)
      · exact Or.inl h
      · exact Or.inr (flatten_set_subset rest i x (fun pk' hpk' => hperm pk' (by simpa using hpk')) t h)

theorem flatten_nodup_set :
    ∀ (L : List (List ℕ)) (i : ℕ) (x : List ℕ),
      (∀ pk, L[i]? = some pk → x.Perm pk) →
      L.flatten.Nodup → (L.set i x).flatten.Nodup
  | [], i, x, _, h => by simpa using h
  | pk :: rest, 0, x, hperm, h => by
      have hx : x.Perm pk := hperm pk (by simp)
      simp only [List.set, List.flatten_cons] at h ⊢
      exact ((hx.append_right _).nodup_iff).mpr h
  | pk :: rest, i + 1, x, hperm, h => by
      simp only [List.set, List.flatten_cons, List.nodup_append] at h ⊢
      obtain ⟨h1, h2, h3⟩ := h
      refine ⟨h1, flatten_nodup_set rest i x (fun pk' hpk' => hperm pk' (by simpa using hpk')) h2, ?_⟩
      intro t ht htm
      exact h3 ht (flatten_set_subset rest i x (fun pk' hpk' => hperm pk' (by simpa using hpk')) t htm)

theorem renderStageReadsGo_sub (chain : List Stage) (bl : List RenderBufferEntry) :
    ∀ (im : List (String × InputSampler)) (t : ℕ),
      t ∈ renderStageReadsGo chain bl im → t ∈ frontTextures bl
  | [], t => by simp [renderStageReadsGo]
  | (nm, sampler) :: rest, t => by
      intro h
      rcases hmi : lastMatchIndex chain sampler.sourceName with _ | idx
      · rw [show renderStageReadsGo chain bl ((nm, sampler) :: rest)
            = renderStageReadsGo chain bl rest from by
          simp [renderStageReadsGo, hmi]] at h
        exact renderStageReadsGo_sub chain bl rest t h
      · rcases hbe : bl[idx]? with _ | entry
        · rw [show renderStageReadsGo chain bl ((nm, sampler) :: rest)
              = renderStageReadsGo chain bl rest from by
            simp [renderStageReadsGo, hmi, hbe]] at h
          exact renderStageReadsGo_sub chain bl rest t h
        · rcases hE : entry.1 with _ | ⟨t0, restp⟩
          · rw [show renderStageReadsGo chain bl ((nm, sampler) :: rest)
                = renderStageReadsGo chain bl rest from by
              simp [renderStageReadsGo, hmi, hbe, hE]] at h
            exact renderStageReadsGo_sub chain bl rest t h
          · rw [show renderStageReadsGo chain bl ((nm, sampler) :: rest)
                = t0 :: renderStageReadsGo chain bl rest from by
              simp [renderStageReadsGo, hmi, hbe, hE]] at h
            rcases List.mem_cons.mp h with rfl | h'
            · have hmem : entry ∈ bl := List.getElem?_mem hbe
              have hhead : entry.1.headD 0 = t := by rw [hE]; rfl
              simp only [frontTextures, List.mem_map]
              exact ⟨entry, hmem, hhead⟩
            · exact renderStageReadsGo_sub chain bl rest t h'

theorem target_not_front (bl : List RenderBufferEntry) (i : ℕ)
    (entry : RenderBufferEntry)
    (hpacks : ∀ e ∈ bl, e.1.length = 2)
    (hnd : ((bl.map Prod.fst).flatten).Nodup)
    (hentry : bl[i]? = some entry) :
    entry.1.getD 1 0 ∉ frontTextures bl := by
  intro hmem
  simp only [frontTextures, List.mem_map] at hmem
  obtain ⟨e', he', hfront⟩ := hmem
  have hEmem : entry ∈ bl := List.getElem?_mem hentry
  have hnodups : ∀ l ∈ bl.map Prod.fst, l.Nodup := (List.nodup_flatten.mp hnd).1
  have hpairs := (List.nodup_flatten.mp hnd).2
  obtain ⟨a, b, hab⟩ : ∃ a b, entry.1 = [a, b] := by
    have h2 := hpacks entry hEmem
    match hE : entry.1, h2 with
    | [a, b], _ => exact ⟨a, b, rfl⟩
  obtain ⟨x, y, hxy⟩ : ∃ x y, e'.1 = [x, y] := by
    have h2 := hpacks e' he'
    match hE : e'.1, h2 with
    | [x, y], _ => exact ⟨x, y, rfl⟩
  have hxb : x = b := by
    rw [hxy, hab] at hfront
    simpa using hfront
  by_cases hsame : e'.1 = entry.1
  · have hentryNodup : entry.1.Nodup := hnodups entry.1 (List.mem_map_of_mem Prod.fst hEmem)
    rw [hab] at hentryNodup
    have hne : a ≠ b := by simpa using hentryNodup
    rw [hxy, hab] at hsame
    have hxa : x = a := (by simpa using hsame : x = a ∧ y = b).1
    exact hne (hxa ▸ hxb ▸ rfl)
  · have hsymm : Symmetric (List.Disjoint (α := ℕ)) := fun _ _ h => h.symm
    have hdisj : e'.1.Disjoint entry.1 :=
      hpairs.forall hsymm (List.mem_map_of_mem Prod.fst he')
        (List.mem_map_of_mem Prod.fst hEmem) hsame
    have hxmem : x ∈ e'.1 := by rw [hxy]; simp
    have hbmem : b ∈ entry.1 := by rw [hab]; simp
    exact hdisj hxmem (hxb ▸ hbmem)

theorem renderStagesGo_events (chain : List Stage) (fns : List String) :
    ∀ (stages : List Stage) (i : ℕ) (bl : List RenderBufferEntry),
      (∀ e ∈ bl, e.1.length = 2) →
      ((bl.map Prod.fst).flatten).Nodup →
      ∀ ev ∈ (renderStagesGo chain fns i stages bl).2,
        i ≤ ev.stageIndex
        ∧ (∀ t ∈ ev.reads, t ∈ ev.frontsAtDraw)
        ∧ ev.target ∉ ev.reads
        ∧ ∃ entry, bl[ev.stageIndex]? = some entry ∧ ev.target = entry.1.getD 1 0
  | [], i, bl, _, _ => by
      intro ev hev
      simp [renderStagesGo] at hev
  | stage :: rest, i, bl, hpacks, hnd => by
      intro ev hev
      rcases hbe : bl[i]? with _ | entry
      · rw [show (renderStagesGo chain fns i (stage :: rest) bl).2
            = (renderStagesGo chain fns (i + 1) rest bl).2 from by
          simp [renderStagesGo, hbe]] at hev
        obtain ⟨hge, hr, ht, e, he1, he2⟩ :=
          renderStagesGo_events chain fns rest (i + 1) bl hpacks hnd ev hev
        exact ⟨by omega, hr, ht, e, he1, he2⟩
      · rw [show (renderStagesGo chain fns i (stage :: rest) bl).2
            = { stageIndex := i, didDraw := fns.contains stage.filter,
                target := entry.1.getD 1 0,
                reads := renderStageReads chain bl stage,
                frontsAtDraw := frontTextures bl }
              :: (renderStagesGo chain fns (i + 1) rest
                  (bl.set i (rotatePack entry.1, entry.2))).2 from by
          simp [renderStagesGo, hbe]] at hev
        rcases List.mem_cons.mp hev with rfl | hev'
        · refine ⟨le_refl i, ?_, ?_, entry, hbe, rfl⟩
          · intro t htr
            exact renderStageReadsGo_sub chain bl stage.inputMap t htr
          · intro hcontra
            exact target_not_front bl i entry hpacks hnd hbe
              (renderStageReadsGo_sub chain bl stage.inputMap _ hcontra)
        · have hpacks' : ∀ e ∈ bl.set i (rotatePack entry.1, entry.2),
              e.1.length = 2 := by
            intro e he
            rcases List.mem_or_eq_of_mem_set he with h | h
            · exact hpacks e h
            · subst h
              rw [show (rotatePack entry.1, entry.2).1 = rotatePack entry.1 from rfl,
                rotatePack_length]
              exact hpacks entry (List.getElem?_mem hbe)
          have hnd' : (((bl.set i (rotatePack entry.1, entry.2)).map
              Prod.fst).flatten).Nodup := by
            rw [List.map_set]
            apply flatten_nodup_set _ _ _ ?_ hnd
            intro pk hpk
            have hmm : (bl.map Prod.fst)[i]? = some entry.1 := by
              rw [List.getElem?_map, hbe]
              rfl
            rw [hmm] at hpk
            cases hpk
            exact rotatePack_perm entry.1
          obtain ⟨hge, hr, ht, e, he1, he2⟩ :=
            renderStagesGo_events chain fns rest (i + 1) _ hpacks' hnd' ev hev'
          refine ⟨by omega, hr, ht, e, ?_, he2⟩
          rw [← he1]
          exact (List.getElem?_set_ne (by omega)).symm

/-- C1 (amended): each `render_stages` call draws every stage into the back
texture (index 1) of its buffer pair and then rotates the pair so the
just-written texture is at index 0; after N completed calls a pair's index-0
texture is the one that started at index N mod 2; and a stage's draw only
ever reads textures that are at index 0 of some pair *at the moment of that
draw* — never the texture being written in the current draw.  (For the
stage's own pair and later-declared stages those fronts are the previous
frame's completed output, but for earlier-declared stages they are the
output just completed in the current call, since rotation happens
immediately after each stage's own draw.) -/
theorem render_stages_buffering (sv : ShaderView)
    (hlen : sv.renderBufferList.length = sv.renderChain.length)
    (hpacks : ∀ e ∈ sv.renderBufferList, e.1.length = 2)
    (hnd : ((sv.renderBufferList.map Prod.fst).flatten).Nodup) :
    (∀ ev ∈ (sv.renderStages).2,
        (∀ t ∈ ev.reads, t ∈ ev.frontsAtDraw)
        ∧ ev.target ∉ ev.reads
        ∧ ∃ entry, sv.renderBufferList[ev.stageIndex]? = some entry
            ∧ ev.target = entry.1.getD 1 0
            ∧ (sv.renderStages).1.renderBufferList[ev.stageIndex]?
                = some (rotatePack entry.1, entry.2)
            ∧ (rotatePack entry.1).getD 0 0 = ev.target)
    ∧ (∀ (k i : ℕ) (entry : RenderBufferEntry),
        sv.renderBufferList[i]? = some entry →
        (ShaderView.renderStagesState^[k] sv).renderBufferList[i]?
          = some (rotatePack^[k] entry.1, entry.2)
        ∧ (rotatePack^[k] entry.1).getD 0 0 = entry.1.getD (k % 2) 0) := by
  constructor
  · intro ev hev
    obtain ⟨_, hr, ht, entry, he1, he2⟩ :=
      renderStagesGo_events sv.renderChain sv.filterNames sv.renderChain 0
        sv.renderBufferList hpacks hnd ev hev
    refine ⟨hr, ht, entry, he1, he2, ?_, ?_⟩
    · obtain ⟨hb, _, _⟩ := renderStages_buffers sv hlen
      rw [hb, List.getElem?_map, he1]
      rfl
    · have hlen2 := hpacks entry (List.getElem?_mem he1)
      obtain ⟨a, b, hab⟩ : ∃ a b, entry.1 = [a, b] := by
        match hE : entry.1, hlen2 with
        | [a, b], _ => exact ⟨a, b, rfl⟩
      rw [hab, rotatePack_two, he2, hab]
      rfl
  · intro k i entry he
    obtain ⟨hb, _, _⟩ := renderStages_iterate sv hlen k
    constructor
    · rw [hb, List.getElem?_map, he]
      rfl
    · exact rotatePack_iterate_front entry.1
        (hpacks entry (List.getElem?_mem he)) k

/-- C1 counterexample: in the two-stage view `svAB` (stage "b" samples stage
"a") a single `render_stages` call makes stage "b" read texture 11 — the
texture stage "a" *just wrote in this same call* (its draw target), not the
previous frame's completed output: the start-of-call fronts are 10 and 20.
This refutes the claim's parenthesis that index 0 always holds the previous
frame's completed output at read time. -/
theorem render_stages_prev_frame_counterexample :
    readsOnlyPrevFrameFronts svAB = false
    ∧ (svAB.renderStages).2.map (fun ev => (ev.target, ev.reads))
        = [(11, []), (21, [11])]
    ∧ frontTextures svAB.renderBufferList = [10, 20] := by
  refine ⟨by decide, by decide, by decide⟩

/-- Concrete instance of `render_stages_buffering`: the self-feedback view
`svSelf` after two frames has its original front texture back at index 0. -/
theorem render_stages_buffering_witness :
    (ShaderView.renderStagesState^[2] svSelf).renderBufferList[0]?
      = some (rotatePack^[2] [30, 31], (640, 480))
    ∧ (rotatePack^[2] [30, 31]).getD 0 0 = [30, 31].getD (2 % 2) 0 :=
  (render_stages_buffering svSelf rfl (by decide) (by decide)).2 2 0
    ([30, 31], (640, 480)) rfl
